import Mathlib

/-!
Shallow embedding of the cave-routing core (`src/routing/engine.py`,
`src/routing/instructions.py`, `src/routing/junctions.py`) together with
theorems settling the behavioural claims about it.

Modelling conventions:
* Python floats are modelled as exact rationals (`ℚ`) where the program only
  ever produces rational values (grid data, g-scores, step weights, rounded
  coordinates), and as real numbers (`ℝ`) where the program computes with
  `math.sqrt`, `math.exp`, `math.atan2` or `math.pi`.
* Python's builtin `round` is banker's rounding (round half to even); it is
  modelled by `pyRound` / `pyRoundR` below.
* numpy basic slices `a[lo:hi]` are modelled by `pySliceBounds`: a negative
  bound counts from the end of the axis, and the bounds are then clamped to
  the axis length.
* `heapq` priority queues of `(f, counter, row, col)` tuples are modelled as
  lists from which the minimum under the exact order on `f`-scores of the
  form `q + √n` (q rational, n natural, decided by `sqrtLE`) with the
  insertion counter as tie-break is removed.
* 2-D numpy arrays owned by `OccupancyGrid` are modelled as `List (List Bool)`.
-/

/-- Python 3 `round` on an exact rational value: round half to even. -/
def pyRound (q : ℚ) : ℤ :=
  let f := ⌊q⌋
  if q - f < 1/2 then f
  else if 1/2 < q - f then f + 1
  else if f % 2 = 0 then f else f + 1

/-- numpy basic-slice index normalisation for an axis of length `n`:
negative bounds count from the end of the axis, then both bounds are clamped
to `[0, n]`.  Returns the half-open index interval actually touched. -/
def pySliceBounds (n : ℕ) (start stop : ℤ) : ℕ × ℕ :=
  ((max 0 (min (if start < 0 then start + n else start) n)).toNat,
   (max 0 (min (if stop < 0 then stop + n else stop) n)).toNat)

/-- Map a function over a list together with the element's index. -/
def idxMap (f : ℕ → α → α) : List α → List α :=
  go 0
where
  go : ℕ → List α → List α
  | _, [] => []
  | i, x :: xs => f i x :: go (i + 1) xs

/-- Read cell `(r, c)` of a grid stored as a list of rows (`false` outside). -/
def occGet (g : List (List Bool)) (r c : ℤ) : Bool :=
  if 0 ≤ r ∧ 0 ≤ c then ((g.getD r.toNat []).getD c.toNat false) else false

/-- `world_to_cell` of `src/routing/engine.py`: world metres to `(row, col)`. -/
def world_to_cell (x y : ℚ) (origin : ℚ × ℚ) (resolution : ℚ) : ℤ × ℤ :=
  (pyRound ((y - origin.2) / resolution), pyRound ((x - origin.1) / resolution))

/-- `cell_to_world` of `src/routing/engine.py`: `(row, col)` to world metres. -/
def cell_to_world (row col : ℤ) (origin : ℚ × ℚ) (resolution : ℚ) : ℚ × ℚ :=
  (origin.1 + col * resolution, origin.2 + row * resolution)

/-- `OccupancyGrid` of `src/routing/engine.py`: a binary occupancy grid
(`true` = occupied) with its origin, resolution and declared shape. -/
structure OccupancyGrid where
  origin : ℚ × ℚ
  resolution : ℚ
  width : ℤ
  height : ℤ
  grid : List (List Bool)

/-- `OccupancyGrid.__init__`: threshold a heatmap density array
(`occupied ⟺ density > threshold`). -/
def OccupancyGrid.ofHeatmap (heatmap : List (List ℚ)) (origin : ℚ × ℚ)
    (resolution : ℚ) (width height : ℤ) (threshold : ℚ := 1/20) :
    OccupancyGrid :=
  { origin := origin
    resolution := resolution
    width := width
    height := height
    grid := heatmap.map (fun row => row.map (fun d => decide (threshold < d))) }

/-- The slice assignment `grid[r_min:r_max, c_min:c_max] = False` with the
bounds computed by `mark_trajectory_free`, i.e. numpy slice semantics against
the actual row/column lengths of the stored array. -/
def setFalseSlice (g : List (List Bool)) (rlo rhi clo chi : ℤ) :
    List (List Bool) :=
  let rb := pySliceBounds g.length rlo rhi
  idxMap (fun ri row =>
    if rb.1 ≤ ri ∧ ri < rb.2 then
      let cb := pySliceBounds row.length clo chi
      idxMap (fun ci v => if cb.1 ≤ ci ∧ ci < cb.2 then false else v) row
    else row) g

/-- The body of `mark_trajectory_free`'s loop for a single trajectory point. -/
def OccupancyGrid.clearPoint (og : OccupancyGrid) (radius_cells : ℕ)
    (p : ℚ × ℚ) : OccupancyGrid :=
  let rc := world_to_cell p.1 p.2 og.origin og.resolution
  let rlo := max 0 (rc.1 - radius_cells)
  let rhi := min og.height (rc.1 + radius_cells + 1)
  let clo := max 0 (rc.2 - radius_cells)
  let chi := min og.width (rc.2 + radius_cells + 1)
  { og with grid := setFalseSlice og.grid rlo rhi clo chi }

/-- `OccupancyGrid.mark_trajectory_free`: clear a square neighbourhood of
radius `radius_cells` around the cell of every trajectory point. -/
def OccupancyGrid.mark_trajectory_free (og : OccupancyGrid)
    (trajectory : List (ℚ × ℚ)) (radius_cells : ℕ := 2) : OccupancyGrid :=
  trajectory.foldl (fun g p => g.clearPoint radius_cells p) og

/-- `OccupancyGrid.in_bounds`. -/
def OccupancyGrid.in_bounds (og : OccupancyGrid) (row col : ℤ) : Bool :=
  decide (0 ≤ row ∧ row < og.height ∧ 0 ≤ col ∧ col < og.width)

/-- `OccupancyGrid.is_free`: in bounds and not occupied. -/
def OccupancyGrid.is_free (og : OccupancyGrid) (row col : ℤ) : Bool :=
  og.in_bounds row col && !(occGet og.grid row col)

/-- The costmap interface that `astar`, `smooth_path` and the routing layer
consume (duck-typed in Python): a declared shape, the occupancy array of the
underlying grid, a per-cell cost (`none` models `np.inf`), and the geometry
data.  Costs are exact rationals: every float the running program produces is
a rational number. -/
structure CostmapData where
  height : ℤ
  width : ℤ
  occ : List (List Bool)
  costq : ℤ → ℤ → Option ℚ
  origin : ℚ × ℚ
  resolution : ℚ

/-- `Costmap.is_traversable`: in bounds and cost not infinite. -/
def CostmapData.is_traversable (cm : CostmapData) (row col : ℤ) : Bool :=
  decide (0 ≤ row ∧ row < cm.height ∧ 0 ≤ col ∧ col < cm.width) &&
    (cm.costq row col).isSome

/-- `_NEIGHBORS` of `src/routing/engine.py`: 8-connected moves with step
distances (the diagonal weight is the literal `1.414`). -/
def _NEIGHBORS : List (ℤ × ℤ × ℚ) :=
  [(-1, 0, 1), (1, 0, 1), (0, -1, 1), (0, 1, 1),
   (-1, -1, 707/500), (-1, 1, 707/500), (1, -1, 707/500), (1, 1, 707/500)]

/-- `_find_nearest_free`: expanding square-ring search for a traversable cell,
scanning radii `1..max_radius`, each ring in ascending `(dr, dc)` order. -/
def _find_nearest_free (cm : CostmapData) (row col : ℤ)
    (max_radius : ℕ := 20) : Option (ℤ × ℤ) :=
  (List.range' 1 max_radius).findSome? fun rad =>
    (List.range (2 * rad + 1)).findSome? fun i =>
      (List.range (2 * rad + 1)).findSome? fun j =>
        let dr : ℤ := (i : ℤ) - rad
        let dc : ℤ := (j : ℤ) - rad
        if dr.natAbs = rad ∨ dc.natAbs = rad then
          if cm.is_traversable (row + dr) (col + dc) then
            some (row + dr, col + dc)
          else none
        else none

/-- Decide `a + √m ≤ b + √n` for rational `a b` and natural `m n`, by
repeated squaring.  This is the exact order in which the float tuples
`(f_score, …)` of the A* heap compare. -/
def sqrtLE (a : ℚ) (m : ℕ) (b : ℚ) (n : ℕ) : Bool :=
  let d := b - a
  if 0 ≤ d then
    let L := (m : ℚ) - n - d ^ 2
    if L ≤ 0 then true else decide (L ^ 2 ≤ 4 * d ^ 2 * n)
  else
    let M := (n : ℚ) - m - d ^ 2
    if M < 0 then false else decide (4 * d ^ 2 * m ≤ M ^ 2)

/-- An entry of the A* open set: the tuple `(f, counter, row, col)` with the
f-score kept exactly as `fq + √fn`. -/
structure PQEntry where
  fq : ℚ
  fn : ℕ
  counter : ℕ
  cell : ℤ × ℤ
  deriving DecidableEq

/-- The strict order in which `heapq` ranks two entries: by f-score, then by
insertion counter. -/
def entryLT (e₁ e₂ : PQEntry) : Bool :=
  if sqrtLE e₁.fq e₁.fn e₂.fq e₂.fn then
    if sqrtLE e₂.fq e₂.fn e₁.fq e₁.fn then decide (e₁.counter < e₂.counter)
    else true
  else false

/-- `heapq.heappop`: remove and return the minimal entry. -/
def popMin (l : List PQEntry) : Option (PQEntry × List PQEntry) :=
  match l with
  | [] => none
  | e :: es =>
    let best := es.foldl (fun b x => if entryLT x b then x else b) e
    some (best, l.erase best)

/-- Lookup in an association list (the newest binding wins, mirroring dict
update by prepending). -/
def alookup (l : List ((ℤ × ℤ) × α)) (k : ℤ × ℤ) : Option α :=
  match l with
  | [] => none
  | (k', v) :: rest => if k' = k then some v else alookup rest k

/-- `tentative_g < g_score.get(n, inf)` with `none` playing `inf`. -/
def qltOpt (q : ℚ) (o : Option ℚ) : Bool :=
  match o with
  | none => true
  | some v => decide (q < v)

/-- `a > b` on g-scores where `none` models `np.inf`. -/
def qgtOpt (a b : Option ℚ) : Bool :=
  match a, b with
  | none, none => false
  | none, some _ => true
  | some _, none => false
  | some x, some y => decide (y < x)

/-- Squared Euclidean cell distance — the argument of the heuristic's `sqrt`. -/
def hsq (p g : ℤ × ℤ) : ℕ := ((p.1 - g.1) ^ 2 + (p.2 - g.2) ^ 2).toNat

/-- The mutable state of the A* main loop. -/
structure AState where
  open_ : List PQEntry
  came : List ((ℤ × ℤ) × (ℤ × ℤ))
  g : List ((ℤ × ℤ) × ℚ)
  counter : ℕ

/-- Relaxation of one neighbour offset from the popped cell `rc` whose
g-score read at pop time is `currentG` (`none` models `inf`). -/
def relaxNeighbor (cm : CostmapData) (goal rc : ℤ × ℤ)
    (currentG : Option ℚ) (st : AState) (nb : ℤ × ℤ × ℚ) : AState :=
  let n : ℤ × ℤ := (rc.1 + nb.1, rc.2 + nb.2.1)
  if cm.is_traversable n.1 n.2 then
    match cm.costq n.1 n.2, currentG with
    | some cq, some cg =>
      let tentative := cg + cq * nb.2.2
      if qltOpt tentative (alookup st.g n) then
        { open_ := st.open_ ++
            [⟨tentative, hsq n goal, st.counter + 1, n⟩]
          came := (n, rc) :: st.came
          g := (n, tentative) :: st.g
          counter := st.counter + 1 }
      else st
    | _, _ => st
  else st

/-- The path-reconstruction loop `while (r, c) in came_from`, producing the
goal-to-start chain; the fuel `came.length + 1` suffices whenever the parent
links are acyclic (which positive costs guarantee). -/
def chainFrom (came : List ((ℤ × ℤ) × (ℤ × ℤ))) : ℕ → ℤ × ℤ → List (ℤ × ℤ)
  | 0, rc => [rc]
  | fuel + 1, rc =>
    match alookup came rc with
    | none => [rc]
    | some p => rc :: chainFrom came fuel p

/-- The A* main loop; the fuel is the number of allowed iterations left. -/
def astarLoop (cm : CostmapData) (goal : ℤ × ℤ) :
    ℕ → AState → Option (List (ℤ × ℤ))
  | 0, _ => none
  | fuel + 1, st =>
    match popMin st.open_ with
    | none => none
    | some (e, rest) =>
      if e.cell = goal then
        some (chainFrom st.came (st.came.length + 1) goal).reverse
      else
        let currentG := alookup st.g e.cell
        -- `if current_g > g_score.get((r, c), np.inf): continue` compares the
        -- same lookup with itself, so the skip is never taken.
        if qgtOpt currentG currentG then
          astarLoop cm goal fuel { st with open_ := rest }
        else
          astarLoop cm goal fuel
            (_NEIGHBORS.foldl (relaxNeighbor cm goal e.cell currentG)
              { st with open_ := rest })

/-- `astar` of `src/routing/engine.py`: endpoint rescue via
`_find_nearest_free`, then the bounded best-first loop. -/
def astar (cm : CostmapData) (start goal : ℤ × ℤ)
    (max_iterations : ℕ := 500000) : Option (List (ℤ × ℤ)) :=
  let s? := if cm.is_traversable start.1 start.2 then some start
            else _find_nearest_free cm start.1 start.2 20
  match s? with
  | none => none
  | some s =>
    let g? := if cm.is_traversable goal.1 goal.2 then some goal
              else _find_nearest_free cm goal.1 goal.2 20
    match g? with
    | none => none
    | some gl =>
      astarLoop cm gl max_iterations
        { open_ := [⟨0, hsq s gl, 0, s⟩]
          came := []
          g := [(s, 0)]
          counter := 0 }

/-- `.any()` over a 2-D numpy basic slice of a boolean array. -/
def sliceAny (g : List (List Bool)) (rlo rhi clo chi : ℤ) : Bool :=
  let rb := pySliceBounds g.length rlo rhi
  (List.range' rb.1 (rb.2 - rb.1)).any fun ri =>
    let row := g.getD ri []
    let cb := pySliceBounds row.length clo chi
    (List.range' cb.1 (cb.2 - cb.1)).any fun ci => row.getD ci false

/-- `_line_of_sight` of `src/routing/engine.py`: sample the straight segment
between two cells at cell granularity; every sample must be traversable and,
when `min_clearance > 0`, have no occupied cell in its clearance window. -/
def _line_of_sight (cm : CostmapData) (cell_a cell_b : ℤ × ℤ)
    (min_clearance : ℕ) : Bool :=
  let steps := max (cell_b.1 - cell_a.1).natAbs (cell_b.2 - cell_a.2).natAbs
  if steps = 0 then true
  else (List.range (steps + 1)).all fun step =>
    let t : ℚ := (step : ℚ) / (steps : ℚ)
    let r := pyRound ((cell_a.1 : ℚ) + t * ((cell_b.1 : ℚ) - (cell_a.1 : ℚ)))
    let c := pyRound ((cell_a.2 : ℚ) + t * ((cell_b.2 : ℚ) - (cell_a.2 : ℚ)))
    cm.is_traversable r c &&
      (decide (min_clearance = 0) ||
        !sliceAny cm.occ (max 0 (r - min_clearance))
          (min cm.height (r + min_clearance + 1))
          (max 0 (c - min_clearance))
          (min cm.width (c + min_clearance + 1)))

/-- The inner scan `for j in range(len(path) - 1, i + 1, -1)` of
`smooth_path`: the farthest index with line-of-sight, else `i + 1`. -/
def findBestJ (cm : CostmapData) (mc : ℕ) (path : List (ℤ × ℤ)) (i : ℕ) :
    ℕ :=
  match (List.range' (i + 2) (path.length - 1 - (i + 1))).reverse.find?
      (fun j => _line_of_sight cm (path.getD i (0, 0)) (path.getD j (0, 0))
        mc) with
  | some j => j
  | none => i + 1

/-- The main loop of `smooth_path`, from current index `i`; the fuel
dominates the number of remaining iterations. -/
def smoothAux (cm : CostmapData) (mc : ℕ) (path : List (ℤ × ℤ)) :
    ℕ → ℕ → List (ℤ × ℤ)
  | 0, _ => []
  | fuel + 1, i =>
    if i < path.length - 1 then
      path.getD (findBestJ cm mc path i) (0, 0) ::
        smoothAux cm mc path fuel (findBestJ cm mc path i)
    else []

/-- `smooth_path` of `src/routing/engine.py`: Theta*-style greedy
line-of-sight shortening. -/
def smooth_path (path : List (ℤ × ℤ)) (cm : CostmapData)
    (min_clearance_cells : ℕ := 1) : List (ℤ × ℤ) :=
  if path.length ≤ 2 then path
  else path.getD 0 (0, 0) ::
    smoothAux cm min_clearance_cells path path.length 0

/-! ### Properties of `smooth_path` (claim C2) -/

/-- The consecutive-pair relation the smoothed output satisfies: either the
two cells see each other, or they were already consecutive in the input. -/
def smoothStep (cm : CostmapData) (mc : ℕ) (path : List (ℤ × ℤ))
    (a b : ℤ × ℤ) : Prop :=
  _line_of_sight cm a b mc = true ∨
    ∃ k, k + 1 < path.length ∧ path.getD k (0, 0) = a ∧
      path.getD (k + 1) (0, 0) = b

lemma findBestJ_ge (cm : CostmapData) (mc : ℕ) (path : List (ℤ × ℤ))
    (i : ℕ) : i + 1 ≤ findBestJ cm mc path i := by
  unfold findBestJ
  cases hf : (List.range' (i + 2) (path.length - 1 - (i + 1))).reverse.find?
      (fun j => _line_of_sight cm (path.getD i (0, 0)) (path.getD j (0, 0))
        mc) with
  | none => simp
  | some j =>
    have hmem := List.mem_of_find?_eq_some hf
    rw [List.mem_reverse, List.mem_range'_1] at hmem
    show i + 1 ≤ j
    omega

lemma findBestJ_le (cm : CostmapData) (mc : ℕ) (path : List (ℤ × ℤ))
    (i : ℕ) (hi : i < path.length - 1) :
    findBestJ cm mc path i ≤ path.length - 1 := by
  unfold findBestJ
  cases hf : (List.range' (i + 2) (path.length - 1 - (i + 1))).reverse.find?
      (fun j => _line_of_sight cm (path.getD i (0, 0)) (path.getD j (0, 0))
        mc) with
  | none => show i + 1 ≤ path.length - 1; omega
  | some j =>
    have hmem := List.mem_of_find?_eq_some hf
    rw [List.mem_reverse, List.mem_range'_1] at hmem
    show j ≤ path.length - 1
    omega

lemma findBestJ_step (cm : CostmapData) (mc : ℕ) (path : List (ℤ × ℤ))
    (i : ℕ) (hi : i < path.length - 1) :
    smoothStep cm mc path (path.getD i (0, 0))
      (path.getD (findBestJ cm mc path i) (0, 0)) := by
  unfold findBestJ
  cases hf : (List.range' (i + 2) (path.length - 1 - (i + 1))).reverse.find?
      (fun j => _line_of_sight cm (path.getD i (0, 0)) (path.getD j (0, 0))
        mc) with
  | none => exact Or.inr ⟨i, by omega, rfl, rfl⟩
  | some j =>
    have hp := List.find?_some hf
    simp only [decide_eq_true_eq] at hp
    exact Or.inl hp

lemma smoothAux_spec (cm : CostmapData) (mc : ℕ) (path : List (ℤ × ℤ)) :
    ∀ fuel i, path.length - 1 - i ≤ fuel →
      (smoothAux cm mc path fuel i).length ≤ path.length - 1 - i ∧
      (i < path.length - 1 →
        (smoothAux cm mc path fuel i).getLast? =
          some (path.getD (path.length - 1) (0, 0))) ∧
      (¬ i < path.length - 1 → smoothAux cm mc path fuel i = []) ∧
      List.Chain' (smoothStep cm mc path)
        (path.getD i (0, 0) :: smoothAux cm mc path fuel i) := by
  intro fuel
  induction fuel with
  | zero =>
    intro i hfi
    refine ⟨by simp [smoothAux], ?_, by simp [smoothAux], by simp [smoothAux]⟩
    intro hi; omega
  | succ fuel ih =>
    intro i hfi
    by_cases hi : i < path.length - 1
    · have hge := findBestJ_ge cm mc path i
      have hle := findBestJ_le cm mc path i hi
      have hstep := findBestJ_step cm mc path i hi
      have hrec := ih (findBestJ cm mc path i) (by omega)
      obtain ⟨hlen, hlast, hempty, hchain⟩ := hrec
      have hunf : smoothAux cm mc path (fuel + 1) i =
          path.getD (findBestJ cm mc path i) (0, 0) ::
            smoothAux cm mc path fuel (findBestJ cm mc path i) := by
        simp [smoothAux, hi]
      refine ⟨?_, ?_, ?_, ?_⟩
      · rw [hunf]; simp only [List.length_cons]; omega
      · intro _
        rw [hunf]
        by_cases hbj : findBestJ cm mc path i < path.length - 1
        · have hlast2 := hlast hbj
          cases hrecl : smoothAux cm mc path fuel (findBestJ cm mc path i) with
          | nil => rw [hrecl] at hlast2; simp at hlast2
          | cons x xs =>
            rw [hrecl] at hlast2
            rw [List.getLast?_cons_cons]
            exact hlast2
        · have hnil := hempty hbj
          rw [hnil]
          have hbj2 : findBestJ cm mc path i = path.length - 1 := by omega
          simp [hbj2]
      · intro h; omega
      · rw [hunf]
        exact List.chain'_cons.mpr ⟨hstep, hchain⟩
    · refine ⟨?_, ?_, ?_, ?_⟩ <;> simp [smoothAux, hi]

lemma getLast?_eq_getD {α : Type} (l : List α) (d : α) :
    l ≠ [] → l.getLast? = some (l.getD (l.length - 1) d) := by
  induction l with
  | nil => simp
  | cons a t ih =>
    intro _
    cases t with
    | nil => simp
    | cons b t2 =>
      rw [List.getLast?_cons_cons, ih (by simp)]
      have hl : (a :: b :: t2).length - 1 = ((b :: t2).length - 1) + 1 := by
        simp
      rw [hl, List.getD_cons_succ]

/-- The one costmap used to refute the line-of-sight invariant of C2: a
three-cell free corridor (row 0) directly beneath a solid wall (row 1). -/
def cmC2 : CostmapData :=
  { height := 2
    width := 3
    occ := [[false, false, false], [true, true, true]]
    costq := fun r c => if r = 0 ∧ 0 ≤ c ∧ c < 3 then some 1 else none
    origin := (0, 0)
    resolution := 1 }

/-- Counterexample to C2 as stated: `smooth_path` returns the corridor path
unchanged, yet its first consecutive pair fails `_line_of_sight` (the wall
sits inside the clearance window), so not every consecutive output pair has
line-of-sight. -/
theorem C2_los_counterexample :
    smooth_path [(0, 0), (0, 1), (0, 2)] cmC2 1 = [(0, 0), (0, 1), (0, 2)] ∧
    _line_of_sight cmC2 (0, 0) (0, 1) 1 = false := by
  with_unfolding_all decide

/-- C2, amended: for every cell path and costmap, `smooth_path` returns a
path no longer than its input whose first and last cells equal the input's
first and last cells, and every consecutive pair of output cells either has
unobstructed line-of-sight or was already a consecutive pair of the input
path (the fallback `best_j = i + 1` is taken without a line-of-sight
check). -/
theorem C2_smooth_path_shape (cm : CostmapData) (path : List (ℤ × ℤ))
    (mc : ℕ) :
    (smooth_path path cm mc).length ≤ path.length ∧
    (smooth_path path cm mc).head? = path.head? ∧
    (smooth_path path cm mc).getLast? = path.getLast? ∧
    List.Chain' (smoothStep cm mc path) (smooth_path path cm mc) := by
  by_cases h2 : path.length ≤ 2
  · have hsp : smooth_path path cm mc = path := by
      unfold smooth_path; rw [if_pos h2]
    refine ⟨by rw [hsp], by rw [hsp], by rw [hsp], ?_⟩
    rw [hsp]
    rcases path with _ | ⟨a, _ | ⟨b, _ | ⟨c, t⟩⟩⟩
    · simp
    · simp
    · exact List.chain'_pair.mpr (Or.inr ⟨0, by norm_num, rfl, rfl⟩)
    · simp at h2
  · push_neg at h2
    obtain ⟨hlen, hlast, -, hchain⟩ :=
      smoothAux_spec cm mc path path.length 0 (by omega)
    have hsp : smooth_path path cm mc =
        path.getD 0 (0, 0) :: smoothAux cm mc path path.length 0 := by
      unfold smooth_path; rw [if_neg (by omega)]
    refine ⟨?_, ?_, ?_, ?_⟩
    · rw [hsp]; simp only [List.length_cons]; omega
    · rw [hsp]
      rcases path with _ | ⟨a, t⟩
      · simp at h2
      · simp
    · rw [hsp]
      have hlast2 := hlast (by omega)
      cases hrecl : smoothAux cm mc path path.length 0 with
      | nil => rw [hrecl] at hlast2; simp at hlast2
      | cons x xs =>
        rw [hrecl] at hlast2
        rw [List.getLast?_cons_cons, hlast2,
          getLast?_eq_getD path (0, 0) (by intro hnil; rw [hnil] at h2; simp at h2)]
    · rw [hsp]; exact hchain

/-! ### Properties of `mark_trajectory_free` (claims C3, C10) -/

lemma pySliceBounds_stop_le (n : ℕ) (a b : ℤ) : (pySliceBounds n a b).2 ≤ n := by
  simp only [pySliceBounds]
  omega

lemma idxMap_go_getD {α : Type} (f : ℕ → α → α) (l : List α) (s n : ℕ)
    (d : α) :
    (idxMap.go f s l).getD n d =
      if n < l.length then f (s + n) (l.getD n d) else d := by
  induction l generalizing s n with
  | nil => simp [idxMap.go]
  | cons x xs ih =>
    cases n with
    | zero => simp [idxMap.go]
    | succ m =>
      have hs : s + (m + 1) = (s + 1) + m := by omega
      simp only [idxMap.go, List.getD_cons_succ, ih (s + 1) m, List.length_cons,
        Nat.succ_lt_succ_iff, hs]

lemma idxMap_getD {α : Type} (f : ℕ → α → α) (l : List α) (n : ℕ) (d : α) :
    (idxMap f l).getD n d = if n < l.length then f n (l.getD n d) else d := by
  have := idxMap_go_getD f l 0 n d
  simpa [idxMap] using this

/-- Cell-level description of the slice assignment of `mark_trajectory_free`. -/
lemma occGet_setFalseSlice (g : List (List Bool)) (rlo rhi clo chi r c : ℤ) :
    occGet (setFalseSlice g rlo rhi clo chi) r c =
      if 0 ≤ r ∧ 0 ≤ c ∧
          (pySliceBounds g.length rlo rhi).1 ≤ r.toNat ∧
          r.toNat < (pySliceBounds g.length rlo rhi).2 ∧
          (pySliceBounds (g.getD r.toNat []).length clo chi).1 ≤ c.toNat ∧
          c.toNat < (pySliceBounds (g.getD r.toNat []).length clo chi).2
      then false
      else occGet g r c := by
  have hrb2 := pySliceBounds_stop_le g.length rlo rhi
  by_cases h0 : 0 ≤ r ∧ 0 ≤ c
  · by_cases hrlen : r.toNat < g.length
    · by_cases hrb : (pySliceBounds g.length rlo rhi).1 ≤ r.toNat ∧
          r.toNat < (pySliceBounds g.length rlo rhi).2
      · have hcb2 :=
          pySliceBounds_stop_le (g.getD r.toNat []).length clo chi
        by_cases hcb : (pySliceBounds (g.getD r.toNat []).length clo chi).1 ≤
            c.toNat ∧
            c.toNat < (pySliceBounds (g.getD r.toNat []).length clo chi).2
        · rw [if_pos ⟨h0.1, h0.2, hrb.1, hrb.2, hcb.1, hcb.2⟩]
          unfold occGet setFalseSlice
          rw [if_pos h0, idxMap_getD, if_pos hrlen, if_pos hrb, idxMap_getD,
            if_pos (by omega), if_pos hcb]
        · rw [if_neg (by tauto)]
          unfold occGet setFalseSlice
          rw [if_pos h0, if_pos h0, idxMap_getD, if_pos hrlen, if_pos hrb,
            idxMap_getD]
          by_cases hclen : c.toNat < (g.getD r.toNat []).length
          · rw [if_pos hclen, if_neg hcb]
          · rw [if_neg hclen, List.getD_eq_default _ _ (by omega)]
      · rw [if_neg (by tauto)]
        unfold occGet setFalseSlice
        rw [if_pos h0, if_pos h0, idxMap_getD, if_pos hrlen, if_neg hrb]
    · rw [if_neg (fun hcond => hrlen (lt_of_lt_of_le hcond.2.2.2.1 hrb2))]
      unfold occGet setFalseSlice
      rw [if_pos h0, if_pos h0, idxMap_getD, if_neg hrlen]
      have hg : g.getD r.toNat [] = [] := List.getD_eq_default _ _ (by omega)
      rw [hg]
  · rw [if_neg (by tauto)]
    unfold occGet setFalseSlice
    rw [if_neg h0, if_neg h0]

lemma clearPoint_mono (og : OccupancyGrid) (rad : ℕ) (p : ℚ × ℚ) (r c : ℤ)
    (h : occGet (og.clearPoint rad p).grid r c = true) :
    occGet og.grid r c = true := by
  simp only [OccupancyGrid.clearPoint] at h
  rw [occGet_setFalseSlice] at h
  split_ifs at h with hcond
  exact h

lemma mark_mono (og : OccupancyGrid) (traj : List (ℚ × ℚ)) (rad : ℕ)
    (r c : ℤ)
    (h : occGet (og.mark_trajectory_free traj rad).grid r c = true) :
    occGet og.grid r c = true := by
  induction traj generalizing og with
  | nil => exact h
  | cons q rest ih =>
    exact clearPoint_mono og rad q r c (ih (og.clearPoint rad q) h)

lemma mark_dims (og : OccupancyGrid) (traj : List (ℚ × ℚ)) (rad : ℕ) :
    (og.mark_trajectory_free traj rad).origin = og.origin ∧
    (og.mark_trajectory_free traj rad).resolution = og.resolution ∧
    (og.mark_trajectory_free traj rad).height = og.height ∧
    (og.mark_trajectory_free traj rad).width = og.width := by
  induction traj generalizing og with
  | nil => exact ⟨rfl, rfl, rfl, rfl⟩
  | cons q rest ih => exact ih (og.clearPoint rad q)

lemma mark_preserves_free (og : OccupancyGrid) (traj : List (ℚ × ℚ))
    (rad : ℕ) (r c : ℤ) (h : og.is_free r c = true) :
    (og.mark_trajectory_free traj rad).is_free r c = true := by
  unfold OccupancyGrid.is_free OccupancyGrid.in_bounds at h ⊢
  obtain ⟨-, -, hh, hw⟩ := mark_dims og traj rad
  rw [hh, hw]
  rw [Bool.and_eq_true] at h ⊢
  refine ⟨h.1, ?_⟩
  have hocc : occGet og.grid r c = false := by
    have := h.2
    cases hv : occGet og.grid r c
    · rfl
    · rw [hv] at this; simp at this
  cases hv : occGet (og.mark_trajectory_free traj rad).grid r c
  · rfl
  · rw [mark_mono og traj rad r c hv] at hocc; simp at hocc

lemma occGet_setFalseSlice_clear (g : List (List Bool)) (h w r c : ℤ)
    (rad : ℕ) (hr0 : 0 ≤ r) (hrh : r < h) (hc0 : 0 ≤ c) (hcw : c < w) :
    occGet (setFalseSlice g (max 0 (r - rad)) (min h (r + rad + 1))
      (max 0 (c - rad)) (min w (c + rad + 1))) r c = false := by
  rw [occGet_setFalseSlice]
  by_cases hrl : r.toNat < g.length
  · by_cases hcl : c.toNat < (g.getD r.toNat []).length
    · rw [if_pos ?_]
      refine ⟨hr0, hc0, ?_, ?_, ?_, ?_⟩ <;>
        · simp only [pySliceBounds]
          omega
    · rw [if_neg ?_]
      · unfold occGet
        rw [if_pos ⟨hr0, hc0⟩, List.getD_eq_default _ _ (by omega)]
      intro hcond
      have h6 := hcond.2.2.2.2.2
      have hb := pySliceBounds_stop_le (g.getD r.toNat []).length
        (max 0 (c - rad)) (min w (c + rad + 1))
      omega
  · rw [if_neg ?_]
    · unfold occGet
      rw [if_pos ⟨hr0, hc0⟩]
      have hg : g.getD r.toNat [] = [] :=
        List.getD_eq_default _ _ (by omega)
      rw [hg]
      rfl
    intro hcond
    have h4 := hcond.2.2.2.1
    have hb := pySliceBounds_stop_le g.length (max 0 (r - rad))
      (min h (r + rad + 1))
    omega

lemma clearPoint_cell_free (og : OccupancyGrid) (rad : ℕ) (p : ℚ × ℚ)
    (hr0 : 0 ≤ (world_to_cell p.1 p.2 og.origin og.resolution).1)
    (hrh : (world_to_cell p.1 p.2 og.origin og.resolution).1 < og.height)
    (hc0 : 0 ≤ (world_to_cell p.1 p.2 og.origin og.resolution).2)
    (hcw : (world_to_cell p.1 p.2 og.origin og.resolution).2 < og.width) :
    (og.clearPoint rad p).is_free
      (world_to_cell p.1 p.2 og.origin og.resolution).1
      (world_to_cell p.1 p.2 og.origin og.resolution).2 = true := by
  unfold OccupancyGrid.is_free OccupancyGrid.in_bounds
  simp only [OccupancyGrid.clearPoint]
  rw [Bool.and_eq_true]
  constructor
  · simp only [decide_eq_true_eq]
    exact ⟨hr0, hrh, hc0, hcw⟩
  · rw [occGet_setFalseSlice_clear og.grid og.height og.width _ _ rad hr0 hrh hc0 hcw]
    rfl

lemma idxMap_go_id {α : Type} (f : ℕ → α → α) (l : List α) (s : ℕ)
    (h : ∀ i x, f i x = x) : idxMap.go f s l = l := by
  induction l generalizing s with
  | nil => rfl
  | cons x xs ih => simp [idxMap.go, h, ih]

lemma idxMap_id {α : Type} (f : ℕ → α → α) (l : List α)
    (h : ∀ i x, f i x = x) : idxMap f l = l :=
  idxMap_go_id f l 0 h

lemma setFalseSlice_id_rows (g : List (List Bool)) (rlo rhi clo chi : ℤ)
    (h : (pySliceBounds g.length rlo rhi).2 ≤
      (pySliceBounds g.length rlo rhi).1) :
    setFalseSlice g rlo rhi clo chi = g := by
  unfold setFalseSlice
  exact idxMap_id _ _ (fun i x => by
    rw [if_neg]
    intro hcond
    omega)

lemma setFalseSlice_id_cols (g : List (List Bool)) (rlo rhi clo chi : ℤ)
    (h : ∀ n : ℕ, (pySliceBounds n clo chi).2 ≤ (pySliceBounds n clo chi).1) :
    setFalseSlice g rlo rhi clo chi = g := by
  unfold setFalseSlice
  exact idxMap_id _ _ (fun i x => by
    by_cases hrow : (pySliceBounds g.length rlo rhi).1 ≤ i ∧
        i < (pySliceBounds g.length rlo rhi).2
    · rw [if_pos hrow]
      exact idxMap_id _ _ (fun j v => by
        rw [if_neg]
        intro hcond
        have := h x.length
        omega)
    · rw [if_neg hrow])

/-- The occupancy grid used as the C3 counterexample: a single free cell. -/
def ogC3x : OccupancyGrid :=
  { origin := (0, 0), resolution := 1, width := 1, height := 1,
    grid := [[false]] }

/-- Counterexample to C3 as stated: the trajectory point `(5, 0)` of `ogC3x`
corresponds to cell `(0, 5)`, which lies outside the grid, so `is_free` at
that cell still returns `False` after `mark_trajectory_free`. -/
theorem C3_counterexample :
    world_to_cell 5 0 ogC3x.origin ogC3x.resolution = (0, 5) ∧
    (ogC3x.mark_trajectory_free [(5, 0)] 2).is_free 0 5 = false := by
  with_unfolding_all decide

/-- C3, amended: for every trajectory point whose corresponding cell lies in
bounds, `is_free` at that cell returns `True` after `mark_trajectory_free`,
regardless of the density value stored there (out-of-bounds cells are
reported not-free by `is_free`). -/
theorem C3_mark_trajectory_free_frees (og : OccupancyGrid)
    (traj : List (ℚ × ℚ)) (rad : ℕ) (p : ℚ × ℚ) (hmem : p ∈ traj)
    (hr0 : 0 ≤ (world_to_cell p.1 p.2 og.origin og.resolution).1)
    (hrh : (world_to_cell p.1 p.2 og.origin og.resolution).1 < og.height)
    (hc0 : 0 ≤ (world_to_cell p.1 p.2 og.origin og.resolution).2)
    (hcw : (world_to_cell p.1 p.2 og.origin og.resolution).2 < og.width) :
    (og.mark_trajectory_free traj rad).is_free
      (world_to_cell p.1 p.2 og.origin og.resolution).1
      (world_to_cell p.1 p.2 og.origin og.resolution).2 = true := by
  induction traj generalizing og with
  | nil => cases hmem
  | cons q rest ih =>
    rcases List.mem_cons.mp hmem with heq | hmem2
    · subst heq
      exact mark_preserves_free (og.clearPoint rad p) rest rad _ _
        (clearPoint_cell_free og rad p hr0 hrh hc0 hcw)
    · exact ih (og.clearPoint rad q) hmem2 hr0 hrh hc0 hcw

/-- Witness for C3: a grid whose single cell is occupied by density, crossed
by a trajectory point; after `mark_trajectory_free` the cell is free. -/
def ogC3w : OccupancyGrid :=
  { origin := (0, 0), resolution := 1, width := 1, height := 1,
    grid := [[true]] }

theorem C3_witness :
    (ogC3w.mark_trajectory_free [(0, 0)] 2).is_free 0 0 = true := by
  have hcell : world_to_cell (0 : ℚ) (0 : ℚ) ogC3w.origin ogC3w.resolution =
      (0, 0) := by with_unfolding_all decide
  have := C3_mark_trajectory_free_frees ogC3w [(0, 0)] 2 (0, 0)
    (by simp)
    (by rw [hcell])
    (by rw [hcell]; with_unfolding_all decide)
    (by rw [hcell])
    (by rw [hcell]; with_unfolding_all decide)
  rw [hcell] at this
  exact this

/-- The grid used to refute the out-of-bounds clause of C10. -/
def ogC10 : OccupancyGrid :=
  { origin := (0, 0), resolution := 1, width := 1, height := 4,
    grid := [[true], [false], [false], [false]] }

/-- Counterexample to C10 as stated: the trajectory point `(0, -5)` maps to
cell `(-5, 0)`, entirely outside the grid, yet the slice stop `-5 + 3 = -2`
wraps around (numpy negative indexing) to row `2`, so rows `0..1` are cleared
and the grid changes. -/
theorem C10_counterexample :
    world_to_cell 0 (-5) ogC10.origin ogC10.resolution = (-5, 0) ∧
    ogC10.in_bounds (-5) 0 = false ∧
    (ogC10.mark_trajectory_free [(0, -5)] 2).grid ≠ ogC10.grid := by
  with_unfolding_all decide

/-- C10, amended: `mark_trajectory_free` is total and monotone — it never
turns a free cell occupied — and a single point leaves the grid unchanged
when its clipped slice is empty; because numpy slice bounds wrap below zero,
that is guaranteed for cells beyond the top or right edge by at least the
radius (for nonnegative declared dimensions), or so far below the bottom edge
that the wrapped stop is still nonpositive, but not for every out-of-bounds
cell. -/
theorem C10_mark_trajectory_free_safe (og : OccupancyGrid)
    (traj : List (ℚ × ℚ)) (rad : ℕ) :
    (∀ r c : ℤ,
      occGet (og.mark_trajectory_free traj rad).grid r c = true →
        occGet og.grid r c = true) ∧
    (∀ p : ℚ × ℚ, 0 ≤ og.height → 0 ≤ og.width →
      (og.height ≤ (world_to_cell p.1 p.2 og.origin og.resolution).1 - rad ∨
       (world_to_cell p.1 p.2 og.origin og.resolution).1 + rad + 1 ≤
         -(og.grid.length : ℤ) ∨
       og.width ≤ (world_to_cell p.1 p.2 og.origin og.resolution).2 - rad) →
      og.clearPoint rad p = og) := by
  constructor
  · exact fun r c h => mark_mono og traj rad r c h
  · intro p hh hw hcase
    have hgrid : setFalseSlice og.grid
        (max 0 ((world_to_cell p.1 p.2 og.origin og.resolution).1 - rad))
        (min og.height
          ((world_to_cell p.1 p.2 og.origin og.resolution).1 + rad + 1))
        (max 0 ((world_to_cell p.1 p.2 og.origin og.resolution).2 - rad))
        (min og.width
          ((world_to_cell p.1 p.2 og.origin og.resolution).2 + rad + 1)) =
        og.grid := by
      rcases hcase with h1 | h2 | h3
      · apply setFalseSlice_id_rows
        simp only [pySliceBounds]
        omega
      · apply setFalseSlice_id_rows
        simp only [pySliceBounds]
        omega
      · apply setFalseSlice_id_cols
        intro n
        simp only [pySliceBounds]
        omega
    show { og with grid := _ } = og
    rw [hgrid]

/-- Witness grid for C10: one occupied cell. -/
def ogC10w : OccupancyGrid :=
  { origin := (0, 0), resolution := 1, width := 1, height := 1,
    grid := [[true]] }

theorem C10_witness :
    occGet ogC10w.grid 0 0 = true ∧ ogC10w.clearPoint 2 (5, 5) = ogC10w := by
  constructor
  · exact (C10_mark_trajectory_free_safe ogC10w [] 2).1 0 0
      (by with_unfolding_all decide)
  · exact (C10_mark_trajectory_free_safe ogC10w [] 2).2 (5, 5)
      (by with_unfolding_all decide) (by with_unfolding_all decide)
      (Or.inl (by with_unfolding_all decide))

/-! ### Path validity and the optimality claim for `astar` (claims C1, C6) -/

/-- `n` is one 8-connected step away from `p` (an offset of `_NEIGHBORS`). -/
def isNeighborStep (p n : ℤ × ℤ) : Prop :=
  ∃ nb ∈ _NEIGHBORS, n = (p.1 + nb.1, p.2 + nb.2.1)

/-- Boolean 8-adjacency. -/
def adj8 (p n : ℤ × ℤ) : Bool :=
  _NEIGHBORS.any fun nb => decide (n = (p.1 + nb.1, p.2 + nb.2.1))

/-- A valid cell path from `s` to `g`: nonempty, correct endpoints, all cells
traversable, consecutive cells 8-adjacent. -/
def validCellPath (cm : CostmapData) (s g : ℤ × ℤ) (p : List (ℤ × ℤ)) :
    Bool :=
  (p.head? == some s) && (p.getLast? == some g) &&
    (p.all fun rc => cm.is_traversable rc.1 rc.2) &&
    ((p.zip p.tail).all fun ab => adj8 ab.1 ab.2)

/-- The step distance `astar` charges for the move from `a` to `b`. -/
def stepWeight (a b : ℤ × ℤ) : ℚ :=
  match _NEIGHBORS.find?
      (fun nb => decide (b = (a.1 + nb.1, a.2 + nb.2.1))) with
  | some nb => nb.2.2
  | none => 0

/-- Total cost `astar` assigns a path: destination-cell cost times step
distance, summed over the moves. -/
def pathCost (cm : CostmapData) (p : List (ℤ × ℤ)) : ℚ :=
  ((p.zip p.tail).map
    (fun ab => (cm.costq ab.2.1 ab.2.2).getD 0 * stepWeight ab.1 ab.2)).sum

/-- Bounded check that every traversable cell carries the identical cost `k`
(cells outside the bounds are never traversable). -/
def uniformCost (cm : CostmapData) (k : ℚ) : Bool :=
  (List.range cm.height.toNat).all fun r =>
    (List.range cm.width.toNat).all fun c =>
      !(cm.is_traversable r c) || (cm.costq r c == some k)

lemma uniformCost_spec (cm : CostmapData) (k : ℚ)
    (h : uniformCost cm k = true) :
    ∀ r c : ℤ, cm.is_traversable r c = true → cm.costq r c = some k := by
  intro r c htrav
  have hb : 0 ≤ r ∧ r < cm.height ∧ 0 ≤ c ∧ c < cm.width := by
    have := htrav
    unfold CostmapData.is_traversable at this
    rw [Bool.and_eq_true, decide_eq_true_eq] at this
    exact this.1
  unfold uniformCost at h
  rw [List.all_eq_true] at h
  have h1 := h r.toNat (by rw [List.mem_range]; omega)
  rw [List.all_eq_true] at h1
  have h2 := h1 c.toNat (by rw [List.mem_range]; omega)
  rw [show ((r.toNat : ℕ) : ℤ) = r by omega,
    show ((c.toNat : ℕ) : ℤ) = c by omega] at h2
  rw [htrav] at h2
  simp only [Bool.not_true, Bool.false_or, beq_iff_eq] at h2
  exact h2

/-- The 4×4 grid refuting C1 (`#` = wall):
```
. . . #
# . . .
. # # .
# . . .
```
with uniform traversable cost `1/2`. -/
def occC1 : List (List Bool) :=
  [[false, false, false, true],
   [true, false, false, false],
   [false, true, true, false],
   [true, false, false, false]]

def cmC1 : CostmapData :=
  { height := 4
    width := 4
    occ := occC1
    costq := fun r c =>
      if occGet occC1 r c = false ∧ 0 ≤ r ∧ r < 4 ∧ 0 ≤ c ∧ c < 4 then
        some (1/2)
      else none
    origin := (0, 0)
    resolution := 1 }

/-- Counterexample to C1: on `cmC1`, whose traversable cells all cost `1/2`,
with traversable start `(3,2)` and goal `(0,1)`, the default-bounded `astar`
returns a 5-cell path, while the valid path
`[(3,2), (2,3), (1,2), (0,1)]` has both fewer cells and lower total cost: the
Euclidean heuristic overestimates the remaining cost once the uniform cost
drops below `√2/1.414`, so the search is no longer admissible. -/
theorem C1_counterexample :
    uniformCost cmC1 (1/2) = true ∧
    cmC1.is_traversable 3 2 = true ∧
    cmC1.is_traversable 0 1 = true ∧
    astar cmC1 (3, 2) (0, 1) 500000 =
      some [(3, 2), (3, 1), (2, 0), (1, 1), (0, 1)] ∧
    validCellPath cmC1 (3, 2) (0, 1) [(3, 2), (2, 3), (1, 2), (0, 1)] =
      true ∧
    ([(3, 2), (2, 3), (1, 2), (0, 1)] : List (ℤ × ℤ)).length <
      ([(3, 2), (3, 1), (2, 0), (1, 1), (0, 1)] : List (ℤ × ℤ)).length ∧
    pathCost cmC1 [(3, 2), (2, 3), (1, 2), (0, 1)] <
      pathCost cmC1 [(3, 2), (3, 1), (2, 0), (1, 1), (0, 1)] := by
  set_option maxRecDepth 1000000 in with_unfolding_all decide

lemma alookup_cons {α : Type} (a : ℤ × ℤ) (b : α) (l : List ((ℤ × ℤ) × α))
    (k : ℤ × ℤ) :
    alookup ((a, b) :: l) k = if a = k then some b else alookup l k := rfl

lemma alookup_mem {α : Type} (l : List ((ℤ × ℤ) × α)) (k : ℤ × ℤ) (v : α)
    (h : alookup l k = some v) : (k, v) ∈ l := by
  induction l with
  | nil => simp [alookup] at h
  | cons e t ih =>
    obtain ⟨a, b⟩ := e
    rw [alookup_cons] at h
    split_ifs at h with ha
    · subst ha
      injection h with h
      subst h
      exact List.mem_cons_self _ _
    · exact List.mem_cons_of_mem _ (ih h)

lemma foldl_choose_mem (xs : List PQEntry) (b : PQEntry) :
    xs.foldl (fun b x => if entryLT x b then x else b) b = b ∨
    xs.foldl (fun b x => if entryLT x b then x else b) b ∈ xs := by
  induction xs generalizing b with
  | nil => exact Or.inl rfl
  | cons x t ih =>
    simp only [List.foldl_cons]
    rcases ih (if entryLT x b then x else b) with h | h
    · rw [h]
      split_ifs with hx
      · exact Or.inr (List.mem_cons_self _ _)
      · exact Or.inl rfl
    · exact Or.inr (List.mem_cons_of_mem _ h)

lemma popMin_mem (l : List PQEntry) (e : PQEntry) (rest : List PQEntry)
    (h : popMin l = some (e, rest)) : e ∈ l := by
  cases l with
  | nil => simp [popMin] at h
  | cons x xs =>
    unfold popMin at h
    injection h with h
    have he : xs.foldl (fun b x => if entryLT x b then x else b) x = e := by
      have := congrArg Prod.fst h
      simpa using this
    rcases foldl_choose_mem xs x with hx | hx
    · rw [he] at hx; rw [← hx]; exact List.mem_cons_self _ _
    · rw [he] at hx; exact List.mem_cons_of_mem _ hx

lemma popMin_rest (l : List PQEntry) (e : PQEntry) (rest : List PQEntry)
    (h : popMin l = some (e, rest)) : rest = l.erase e := by
  cases l with
  | nil => simp [popMin] at h
  | cons x xs =>
    unfold popMin at h
    injection h with h
    have h2 := congrArg Prod.snd h
    have h1 := congrArg Prod.fst h
    simp only at h1 h2
    rw [← h2, h1]

lemma neighbors_facts :
    ∀ nb ∈ _NEIGHBORS, 0 < nb.2.2 ∧ ¬(nb.1 = 0 ∧ nb.2.1 = 0) := by
  intro nb hnb
  fin_cases hnb <;> exact ⟨by norm_num, by norm_num⟩

lemma qgtOpt_self (o : Option ℚ) : qgtOpt o o = false := by
  cases o <;> simp [qgtOpt]

/-- Invariant of the A* loop state tying the parent map, the g-score map and
the open set together; `start` is the (rescued) start cell.  With positive
costs the g-scores strictly decrease along parent links, which makes the
parent map acyclic and rooted at `start`. -/
structure AInv (cm : CostmapData) (start : ℤ × ℤ) (st : AState) : Prop where
  start_g : alookup st.g start ≠ none
  g_trav : ∀ n q, alookup st.g n = some q → cm.is_traversable n.1 n.2 = true
  came_g : ∀ n p, alookup st.came n = some p →
    alookup st.g n ≠ none ∧ alookup st.g p ≠ none
  came_adj : ∀ n p, alookup st.came n = some p → isNeighborStep p n
  came_dec : ∀ n p qn qp, alookup st.came n = some p →
    alookup st.g n = some qn → alookup st.g p = some qp → qp < qn
  root : ∀ n q, alookup st.g n = some q →
    n = start ∨ alookup st.came n ≠ none
  open_g : ∀ e ∈ st.open_, alookup st.g e.cell ≠ none

lemma relaxNeighbor_inv (cm : CostmapData) (start goal rc : ℤ × ℤ) (cg : ℚ)
    (st : AState) (nb : ℤ × ℤ × ℚ) (hnb : nb ∈ _NEIGHBORS)
    (pos : ∀ r c q, cm.costq r c = some q → 0 < q)
    (hrc : alookup st.g rc = some cg)
    (hinv : AInv cm start st) :
    AInv cm start (relaxNeighbor cm goal rc (some cg) st nb) ∧
    alookup (relaxNeighbor cm goal rc (some cg) st nb).g rc = some cg := by
  obtain ⟨hstep_pos, hnz⟩ := neighbors_facts nb hnb
  simp only [relaxNeighbor]
  by_cases htrav :
      cm.is_traversable (rc.1 + nb.1) (rc.2 + nb.2.1) = true
  case neg =>
    rw [if_neg htrav]
    exact ⟨hinv, hrc⟩
  case pos =>
    rw [if_pos htrav]
    have hsome : (cm.costq (rc.1 + nb.1) (rc.2 + nb.2.1)).isSome = true := by
      unfold CostmapData.is_traversable at htrav
      rw [Bool.and_eq_true] at htrav
      exact htrav.2
    obtain ⟨cq, hcq⟩ := Option.isSome_iff_exists.mp hsome
    simp only [hcq]
    set n : ℤ × ℤ := (rc.1 + nb.1, rc.2 + nb.2.1) with hn
    set tent : ℚ := cg + cq * nb.2.2 with htentdef
    have hne : n ≠ rc := by
      intro heq
      apply hnz
      have h1 : rc.1 + nb.1 = rc.1 := congrArg Prod.fst heq
      have h2 : rc.2 + nb.2.1 = rc.2 := congrArg Prod.snd heq
      omega
    have htent : cg < tent := by
      have := mul_pos (pos _ _ _ hcq) hstep_pos
      rw [htentdef]
      linarith
    by_cases himp : qltOpt tent (alookup st.g n) = true
    case neg =>
      rw [if_neg himp]
      exact ⟨hinv, hrc⟩
    case pos =>
      rw [if_pos himp]
      have himp' : ∀ qold, alookup st.g n = some qold → tent < qold := by
        intro qold hold
        unfold qltOpt at himp
        rw [hold] at himp
        simpa using himp
      refine ⟨?_, ?_⟩
      case refine_2 =>
        show alookup ((n, tent) :: st.g) rc = some cg
        rw [alookup_cons, if_neg hne]
        exact hrc
      refine ⟨?_, ?_, ?_, ?_, ?_, ?_, ?_⟩
      · -- start_g
        show alookup ((n, tent) :: st.g) start ≠ none
        rw [alookup_cons]
        split_ifs
        · simp
        · exact hinv.start_g
      · -- g_trav
        intro m q h
        rw [alookup_cons] at h
        split_ifs at h with hm
        · rw [← hm]; exact htrav
        · exact hinv.g_trav m q h
      · -- came_g
        intro m p h
        rw [alookup_cons] at h
        split_ifs at h with hm
        · injection h with h
          subst h
          constructor
          · show alookup ((n, tent) :: st.g) m ≠ none
            rw [alookup_cons, if_pos hm]
            simp
          · show alookup ((n, tent) :: st.g) rc ≠ none
            rw [alookup_cons, if_neg hne, hrc]
            simp
        · obtain ⟨h1, h2⟩ := hinv.came_g m p h
          constructor
          · show alookup ((n, tent) :: st.g) m ≠ none
            rw [alookup_cons, if_neg hm]
            exact h1
          · show alookup ((n, tent) :: st.g) p ≠ none
            rw [alookup_cons]
            split_ifs
            · simp
            · exact h2
      · -- came_adj
        intro m p h
        rw [alookup_cons] at h
        split_ifs at h with hm
        · injection h with h
          subst h
          rw [← hm]
          exact ⟨nb, hnb, rfl⟩
        · exact hinv.came_adj m p h
      · -- came_dec
        intro m p qm qp hcame hgm hgp
        rw [alookup_cons] at hcame
        rw [alookup_cons] at hgm hgp
        split_ifs at hcame with hm
        · -- the fresh edge (n, rc)
          injection hcame with hcame
          subst hcame
          rw [if_pos hm] at hgm
          injection hgm with hgm
          rw [if_neg hne] at hgp
          rw [hrc] at hgp
          injection hgp with hgp
          rw [← hgm, ← hgp]
          exact htent
        · -- an old edge, possibly pointing at the updated key n
          rw [if_neg hm] at hgm
          split_ifs at hgp with hp
          · -- parent is the updated cell n
            injection hgp with hgp
            obtain ⟨-, hpg⟩ := hinv.came_g m p hcame
            obtain ⟨qold, hqold⟩ := Option.ne_none_iff_exists'.mp hpg
            have h1 := hinv.came_dec m p qm qold hcame hgm hqold
            have h2 := himp' qold (by rw [hp]; exact hqold)
            rw [← hgp]
            linarith
          · exact hinv.came_dec m p qm qp hcame hgm hgp
      · -- root
        intro m q h
        rw [alookup_cons] at h
        split_ifs at h with hm
        · right
          show alookup ((n, rc) :: st.came) m ≠ none
          rw [alookup_cons, if_pos hm]
          simp
        · rcases hinv.root m q h with hstart | hcame
          · exact Or.inl hstart
          · right
            show alookup ((n, rc) :: st.came) m ≠ none
            rw [alookup_cons, if_neg hm]
            exact hcame
      · -- open_g
        intro e he
        rw [List.mem_append] at he
        show alookup ((n, tent) :: st.g) e.cell ≠ none
        rw [alookup_cons]
        split_ifs with hc
        · simp
        · rcases he with he | he
          · exact hinv.open_g e he
          · simp at he
            rw [he] at hc
            simp at hc

lemma foldl_relax_inv (cm : CostmapData) (start goal rc : ℤ × ℤ) (cg : ℚ)
    (pos : ∀ r c q, cm.costq r c = some q → 0 < q) :
    ∀ (l : List (ℤ × ℤ × ℚ)), (∀ nb ∈ l, nb ∈ _NEIGHBORS) →
    ∀ st : AState, alookup st.g rc = some cg → AInv cm start st →
      AInv cm start (l.foldl (relaxNeighbor cm goal rc (some cg)) st) := by
  intro l
  induction l with
  | nil => intro _ st _ hinv; exact hinv
  | cons nb t ih =>
    intro hl st hrc hinv
    rw [List.foldl_cons]
    obtain ⟨hinv', hrc'⟩ :=
      relaxNeighbor_inv cm start goal rc cg st nb
        (hl nb (List.mem_cons_self _ _)) pos hrc hinv
    exact ih (fun x hx => hl x (List.mem_cons_of_mem _ hx)) _ hrc' hinv'

lemma countP_le_of_imp {α : Type} (l : List α) (p q : α → Bool)
    (himp : ∀ a, p a = true → q a = true) : l.countP p ≤ l.countP q := by
  induction l with
  | nil => simp
  | cons a t ih =>
    rw [List.countP_cons, List.countP_cons]
    cases hpa : p a
    · cases hqa : q a <;> simp <;> omega
    · rw [himp a hpa]
      simp
      omega

lemma countP_lt_of_mem {α : Type} (l : List α) (p q : α → Bool) (x : α)
    (hx : x ∈ l) (hpx : p x = false) (hqx : q x = true)
    (himp : ∀ a, p a = true → q a = true) : l.countP p < l.countP q := by
  induction l with
  | nil => cases hx
  | cons a t ih =>
    rw [List.countP_cons, List.countP_cons]
    rcases List.mem_cons.mp hx with heq | hmem
    · subst heq
      rw [hpx, hqx]
      have := countP_le_of_imp t p q himp
      simp
      omega
    · have := ih hmem
      cases hpa : p a
      · cases hqa : q a <;> simp <;> omega
      · rw [himp a hpa]
        simp
        omega

/-- Number of parent-map entries whose key's g-score is strictly below `q` —
the decreasing measure that bounds the length of a parent chain. -/
def gBelowCount (st : AState) (q : ℚ) : ℕ :=
  st.came.countP fun e =>
    match alookup st.g e.1 with
    | some w => decide (w < q)
    | none => false

lemma getLast?_cons_of_ne_nil {α : Type} (a : α) (l : List α)
    (h : l ≠ []) : (a :: l).getLast? = l.getLast? := by
  cases l with
  | nil => exact absurd rfl h
  | cons b t => rw [List.getLast?_cons_cons]

lemma chainFrom_none (came : List ((ℤ × ℤ) × (ℤ × ℤ))) (fuel : ℕ)
    (p : ℤ × ℤ) (h : alookup came p = none) :
    chainFrom came fuel p = [p] := by
  cases fuel with
  | zero => rfl
  | succ fuel => unfold chainFrom; rw [h]

lemma chainFrom_spec (cm : CostmapData) (start : ℤ × ℤ) (st : AState)
    (hinv : AInv cm start st) :
    ∀ (fuel : ℕ) (rc : ℤ × ℤ) (q : ℚ), alookup st.g rc = some q →
      gBelowCount st q < fuel →
      chainFrom st.came fuel rc ≠ [] ∧
      (chainFrom st.came fuel rc).head? = some rc ∧
      (chainFrom st.came fuel rc).getLast? = some start ∧
      List.Chain' (fun a b => isNeighborStep b a)
        (chainFrom st.came fuel rc) ∧
      (∀ x ∈ chainFrom st.came fuel rc, ∃ qx, alookup st.g x = some qx) := by
  intro fuel
  induction fuel with
  | zero => intro rc q hq hcount; omega
  | succ fuel ih =>
    intro rc q hq hcount
    cases hcame : alookup st.came rc with
    | none =>
      have hstart : rc = start := by
        rcases hinv.root rc q hq with h | h
        · exact h
        · exact absurd hcame h
      have hunf : chainFrom st.came (fuel + 1) rc = [rc] := by
        conv_lhs => unfold chainFrom
        rw [hcame]
      rw [hunf]
      subst hstart
      refine ⟨by simp, by simp, by simp, by simp, ?_⟩
      intro x hx
      simp at hx
      subst hx
      exact ⟨q, hq⟩
    | some p =>
      have hunf : chainFrom st.came (fuel + 1) rc =
          rc :: chainFrom st.came fuel p := by
        conv_lhs => unfold chainFrom
        rw [hcame]
      have hpg := (hinv.came_g rc p hcame).2
      obtain ⟨qp, hqp⟩ := Option.ne_none_iff_exists'.mp hpg
      have hlt : qp < q := hinv.came_dec rc p q qp hcame hq hqp
      have hadj : isNeighborStep p rc := hinv.came_adj rc p hcame
      have himp : ∀ e : (ℤ × ℤ) × (ℤ × ℤ),
          (match alookup st.g e.1 with
            | some w => decide (w < qp)
            | none => false) = true →
          (match alookup st.g e.1 with
            | some w => decide (w < q)
            | none => false) = true := by
        intro e he
        cases hge : alookup st.g e.1 with
        | none => rw [hge] at he; simp at he
        | some w =>
          rw [hge] at he
          simp only [decide_eq_true_eq] at he ⊢
          linarith
      cases hcp : alookup st.came p with
      | none =>
        have hpstart : p = start := by
          rcases hinv.root p qp hqp with h | h
          · exact h
          · exact absurd hcp h
        rw [hunf, chainFrom_none st.came fuel p hcp]
        subst hpstart
        refine ⟨by simp, by simp, by simp, ?_, ?_⟩
        · exact List.chain'_pair.mpr hadj
        · intro x hx
          rcases List.mem_cons.mp hx with h | h
          · subst h; exact ⟨q, hq⟩
          · simp at h; subst h; exact ⟨qp, hqp⟩
      | some pp =>
        have hmemp : (p, pp) ∈ st.came := alookup_mem _ _ _ hcp
        have hstrict : gBelowCount st qp < gBelowCount st q := by
          apply countP_lt_of_mem _ _ _ (p, pp) hmemp
          · show (match alookup st.g p with
              | some w => decide (w < qp)
              | none => false) = false
            rw [hqp]
            simp
          · show (match alookup st.g p with
              | some w => decide (w < q)
              | none => false) = true
            rw [hqp]
            simpa using hlt
          · exact himp
        obtain ⟨hne2, hhead, hlast, hchain, hmem2⟩ :=
          ih p qp hqp (by omega)
        rw [hunf]
        refine ⟨by simp, by simp, ?_, ?_, ?_⟩
        · rw [getLast?_cons_of_ne_nil rc _ hne2]
          exact hlast
        · refine List.chain'_cons'.mpr ⟨?_, hchain⟩
          intro y hy
          rw [hhead] at hy
          simp at hy
          subst hy
          exact hadj
        · intro x hx
          rcases List.mem_cons.mp hx with h | h
          · subst h; exact ⟨q, hq⟩
          · exact hmem2 x h

lemma chainFrom_ne_nil (came : List ((ℤ × ℤ) × (ℤ × ℤ))) (fuel : ℕ)
    (rc : ℤ × ℤ) : chainFrom came fuel rc ≠ [] := by
  cases fuel with
  | zero => simp [chainFrom]
  | succ fuel =>
    unfold chainFrom
    cases alookup came rc <;> simp

lemma astarLoop_succ_pop (cm : CostmapData) (goal : ℤ × ℤ) (fuel : ℕ)
    (st : AState) (e : PQEntry) (rest : List PQEntry)
    (hpop : popMin st.open_ = some (e, rest)) :
    astarLoop cm goal (fuel + 1) st =
      if e.cell = goal then
        some (chainFrom st.came (st.came.length + 1) goal).reverse
      else if qgtOpt (alookup st.g e.cell) (alookup st.g e.cell) then
        astarLoop cm goal fuel { st with open_ := rest }
      else
        astarLoop cm goal fuel
          (_NEIGHBORS.foldl
            (relaxNeighbor cm goal e.cell (alookup st.g e.cell))
            { st with open_ := rest }) := by
  conv_lhs => unfold astarLoop
  rw [hpop]

lemma astarLoop_some_valid (cm : CostmapData) (start goal : ℤ × ℤ)
    (pos : ∀ r c q, cm.costq r c = some q → 0 < q) :
    ∀ (fuel : ℕ) (st : AState) (p : List (ℤ × ℤ)), AInv cm start st →
      astarLoop cm goal fuel st = some p →
      p ≠ [] ∧ p.head? = some start ∧ p.getLast? = some goal ∧
      List.Chain' isNeighborStep p ∧
      (∀ x ∈ p, cm.is_traversable x.1 x.2 = true) := by
  intro fuel
  induction fuel with
  | zero => intro st p _ h; simp [astarLoop] at h
  | succ fuel ih =>
    intro st p hinv hres
    cases hpop : popMin st.open_ with
    | none =>
      unfold astarLoop at hres
      rw [hpop] at hres
      simp at hres
    | some er =>
      obtain ⟨e, rest⟩ := er
      rw [astarLoop_succ_pop cm goal fuel st e rest hpop] at hres
      have hmem := popMin_mem st.open_ e rest hpop
      have hcg := hinv.open_g e hmem
      obtain ⟨cg, hcgv⟩ := Option.ne_none_iff_exists'.mp hcg
      by_cases hgoal : e.cell = goal
      · rw [if_pos hgoal] at hres
        rw [hgoal] at hcgv
        have hcount : gBelowCount st cg < st.came.length + 1 := by
          have := List.countP_le_length (l := st.came)
            (p := fun e : (ℤ × ℤ) × (ℤ × ℤ) =>
              match alookup st.g e.1 with
              | some w => decide (w < cg)
              | none => false)
          unfold gBelowCount
          omega
        obtain ⟨hne, hhead, hlast, hchain, hmem2⟩ :=
          chainFrom_spec cm start st hinv (st.came.length + 1) goal cg
            hcgv hcount
        have hp : p = (chainFrom st.came (st.came.length + 1) goal).reverse := by
          injection hres with h
          exact h.symm
        subst hp
        refine ⟨by simpa using hne, ?_, ?_, ?_, ?_⟩
        · rw [List.head?_reverse]
          exact hlast
        · rw [List.getLast?_reverse]
          exact hhead
        · rw [List.chain'_reverse]
          exact hchain
        · intro x hx
          rw [List.mem_reverse] at hx
          obtain ⟨qx, hqx⟩ := hmem2 x hx
          exact hinv.g_trav x qx hqx
      · rw [if_neg hgoal] at hres
        rw [hcgv, qgtOpt_self, if_neg (by simp)] at hres
        have hrest : ∀ e' ∈ rest, e' ∈ st.open_ := by
          intro e' he'
          rw [popMin_rest st.open_ e rest hpop] at he'
          exact List.mem_of_mem_erase he'
        have hinv' : AInv cm start { st with open_ := rest } :=
          ⟨hinv.start_g, hinv.g_trav, hinv.came_g, hinv.came_adj,
            hinv.came_dec, hinv.root, fun e' he' => hinv.open_g e' (hrest e' he')⟩
        have hinv2 := foldl_relax_inv cm start goal e.cell cg pos _NEIGHBORS
          (fun nb h => h) { st with open_ := rest } hcgv hinv'
        exact ih _ p hinv2 hres

lemma find_nearest_traversable (cm : CostmapData) (row col : ℤ)
    (mr : ℕ) (rc : ℤ × ℤ) (h : _find_nearest_free cm row col mr = some rc) :
    cm.is_traversable rc.1 rc.2 = true := by
  unfold _find_nearest_free at h
  obtain ⟨rad, -, h⟩ := List.exists_of_findSome?_eq_some h
  obtain ⟨i, -, h⟩ := List.exists_of_findSome?_eq_some h
  obtain ⟨j, -, h⟩ := List.exists_of_findSome?_eq_some h
  simp only at h
  split_ifs at h with h1 h2
  · injection h with h
    subst h
    exact h2

lemma rescue_traversable (cm : CostmapData) (c : ℤ × ℤ) (s : ℤ × ℤ)
    (h : (if cm.is_traversable c.1 c.2 then some c
      else _find_nearest_free cm c.1 c.2 20) = some s) :
    cm.is_traversable s.1 s.2 = true := by
  split_ifs at h with ht
  · injection h with h
    subst h
    exact ht
  · exact find_nearest_traversable cm c.1 c.2 20 s h

/-- C1, amended: whenever every finite cell cost is positive (as is the case
for every costmap the `Costmap` constructor produces) and `astar` returns a
path, that path is nonempty, starts at the (possibly rescued) start cell,
ends at the (possibly rescued) goal cell, moves only between 8-connected
neighbours and visits only traversable cells.  Minimality of its length or
cost is not guaranteed: uniform costs below `√2/1.414` make the Euclidean
heuristic inadmissible (see the counterexample). -/
theorem C1_astar_returns_valid_path (cm : CostmapData)
    (start goal : ℤ × ℤ) (maxIter : ℕ) (p : List (ℤ × ℤ))
    (pos : ∀ r c q, cm.costq r c = some q → 0 < q)
    (hres : astar cm start goal maxIter = some p) :
    ∃ s gl : ℤ × ℤ,
      (if cm.is_traversable start.1 start.2 then some start
        else _find_nearest_free cm start.1 start.2 20) = some s ∧
      (if cm.is_traversable goal.1 goal.2 then some goal
        else _find_nearest_free cm goal.1 goal.2 20) = some gl ∧
      p ≠ [] ∧ p.head? = some s ∧ p.getLast? = some gl ∧
      List.Chain' isNeighborStep p ∧
      (∀ x ∈ p, cm.is_traversable x.1 x.2 = true) := by
  unfold astar at hres
  cases hs : (if cm.is_traversable start.1 start.2 then some start
      else _find_nearest_free cm start.1 start.2 20) with
  | none => rw [hs] at hres; simp at hres
  | some s =>
    rw [hs] at hres
    cases hg : (if cm.is_traversable goal.1 goal.2 then some goal
        else _find_nearest_free cm goal.1 goal.2 20) with
    | none => rw [hg] at hres; simp at hres
    | some gl =>
      rw [hg] at hres
      simp only at hres
      have hstrav := rescue_traversable cm start s hs
      have hinv0 : AInv cm s
          { open_ := [⟨0, hsq s gl, 0, s⟩], came := [], g := [(s, 0)],
            counter := 0 } := by
        refine ⟨?_, ?_, ?_, ?_, ?_, ?_, ?_⟩
        · show alookup [(s, (0 : ℚ))] s ≠ none
          rw [alookup_cons, if_pos rfl]
          simp
        · intro n q h
          rw [alookup_cons] at h
          split_ifs at h with hn
          · rw [← hn]; exact hstrav
          · simp [alookup] at h
        · intro n q h
          simp [alookup] at h
        · intro n q h
          simp [alookup] at h
        · intro n pp qn qp h
          simp [alookup] at h
        · intro n q h
          rw [alookup_cons] at h
          split_ifs at h with hn
          · exact Or.inl hn.symm
          · simp [alookup] at h
        · intro e he
          simp at he
          rw [he]
          show alookup [(s, (0 : ℚ))] s ≠ none
          rw [alookup_cons, if_pos rfl]
          simp
      obtain ⟨h1, h2, h3, h4, h5⟩ :=
        astarLoop_some_valid cm s gl pos maxIter _ p hinv0 hres
      exact ⟨s, gl, rfl, rfl, h1, h2, h3, h4, h5⟩

theorem C1_witness :
    ([(3, 2), (3, 1), (2, 0), (1, 1), (0, 1)] : List (ℤ × ℤ)) ≠ [] ∧
    List.Chain' isNeighborStep
      ([(3, 2), (3, 1), (2, 0), (1, 1), (0, 1)] : List (ℤ × ℤ)) := by
  obtain ⟨s, gl, -, -, h3, -, -, h6, -⟩ :=
    C1_astar_returns_valid_path cmC1 (3, 2) (0, 1) 500000
      [(3, 2), (3, 1), (2, 0), (1, 1), (0, 1)]
      (fun r c q h => by
        unfold cmC1 at h
        simp only at h
        split_ifs at h with hcond
        · injection h with h
          rw [← h]
          norm_num)
      (by set_option maxRecDepth 1000000 in with_unfolding_all decide)
  exact ⟨h3, h6⟩

lemma astarLoop_some_ne_nil (cm : CostmapData) (goal : ℤ × ℤ) :
    ∀ (fuel : ℕ) (st : AState) (p : List (ℤ × ℤ)),
      astarLoop cm goal fuel st = some p → p ≠ [] := by
  intro fuel
  induction fuel with
  | zero => intro st p h; simp [astarLoop] at h
  | succ fuel ih =>
    intro st p h
    cases hpop : popMin st.open_ with
    | none =>
      unfold astarLoop at h
      rw [hpop] at h
      simp at h
    | some er =>
      obtain ⟨e, rest⟩ := er
      rw [astarLoop_succ_pop cm goal fuel st e rest hpop] at h
      split_ifs at h with h1 h2
      · injection h with h
        rw [← h]
        simpa using chainFrom_ne_nil st.came (st.came.length + 1) goal
      · exact ih _ p h
      · exact ih _ p h

/-- One membership test of the reconstruction loop
`while (r, c) in came_from`, iterated: `some` is the current cell while
every lookup so far stayed inside the parent map, `none` once a lookup has
failed (the loop has exited).  Unlike `chainFrom` this carries no
truncation: the source loop terminates from `p` iff some iterate is `none`. -/
def chainIter (came : List ((ℤ × ℤ) × (ℤ × ℤ))) : ℕ → ℤ × ℤ → Option (ℤ × ℤ)
  | 0, rc => some rc
  | fuel + 1, rc =>
    match alookup came rc with
    | none => none
    | some p => chainIter came fuel p

/-- The reconstruction loop fails to terminate from `p`: every iterated
parent lookup stays inside the map. -/
def reconDiverges (came : List ((ℤ × ℤ) × (ℤ × ℤ))) (p : ℤ × ℤ) : Prop :=
  ∀ n, (chainIter came n p).isSome = true

/-- The A* main loop observed at its path-reconstruction site: identical to
`astarLoop`, but at the moment the goal is popped it returns the parent map
the reconstruction `while` loop starts from instead of running the
reconstruction. -/
def astarLoopCame (cm : CostmapData) (goal : ℤ × ℤ) :
    ℕ → AState → Option (List ((ℤ × ℤ) × (ℤ × ℤ)))
  | 0, _ => none
  | fuel + 1, st =>
    match popMin st.open_ with
    | none => none
    | some (e, rest) =>
      if e.cell = goal then
        some st.came
      else
        let currentG := alookup st.g e.cell
        if qgtOpt currentG currentG then
          astarLoopCame cm goal fuel { st with open_ := rest }
        else
          astarLoopCame cm goal fuel
            (_NEIGHBORS.foldl (relaxNeighbor cm goal e.cell currentG)
              { st with open_ := rest })

/-- `astar` observed at the entry of its path-reconstruction loop: the
parent map and the (rescued) goal cell the `while` loop starts from, `none`
on the failure paths. -/
def astarCame (cm : CostmapData) (start goal : ℤ × ℤ)
    (max_iterations : ℕ := 500000) :
    Option (List ((ℤ × ℤ) × (ℤ × ℤ)) × (ℤ × ℤ)) :=
  let s? := if cm.is_traversable start.1 start.2 then some start
            else _find_nearest_free cm start.1 start.2 20
  match s? with
  | none => none
  | some s =>
    let g? := if cm.is_traversable goal.1 goal.2 then some goal
              else _find_nearest_free cm goal.1 goal.2 20
    match g? with
    | none => none
    | some gl =>
      (astarLoopCame cm gl max_iterations
        { open_ := [⟨0, hsq s gl, 0, s⟩]
          came := []
          g := [(s, 0)]
          counter := 0 }).map fun cf => (cf, gl)

lemma chainIter_cycle_isSome (came : List ((ℤ × ℤ) × (ℤ × ℤ)))
    (a b : ℤ × ℤ) (hab : alookup came a = some b)
    (hba : alookup came b = some a) :
    ∀ n, (chainIter came n a).isSome = true ∧
      (chainIter came n b).isSome = true := by
  intro n
  induction n with
  | zero => exact ⟨rfl, rfl⟩
  | succ n ih =>
    refine ⟨?_, ?_⟩
    · have h : chainIter came (n + 1) a = chainIter came n b := by
        conv_lhs => unfold chainIter
        rw [hab]
      rw [h]
      exact ih.2
    · have h : chainIter came (n + 1) b = chainIter came n a := by
        conv_lhs => unfold chainIter
        rw [hba]
      rw [h]
      exact ih.1

lemma reconDiverges_of_cycle (came : List ((ℤ × ℤ) × (ℤ × ℤ)))
    (g a b : ℤ × ℤ) (hg : alookup came g = some a)
    (hab : alookup came a = some b) (hba : alookup came b = some a) :
    reconDiverges came g := by
  intro n
  cases n with
  | zero => rfl
  | succ n =>
    have h : chainIter came (n + 1) g = chainIter came n a := by
      conv_lhs => unfold chainIter
      rw [hg]
    rw [h]
    exact (chainIter_cycle_isSome came a b hab hba n).1

lemma astarLoopCame_succ_pop (cm : CostmapData) (goal : ℤ × ℤ) (fuel : ℕ)
    (st : AState) (e : PQEntry) (rest : List PQEntry)
    (hpop : popMin st.open_ = some (e, rest)) :
    astarLoopCame cm goal (fuel + 1) st =
      if e.cell = goal then some st.came
      else if qgtOpt (alookup st.g e.cell) (alookup st.g e.cell) then
        astarLoopCame cm goal fuel { st with open_ := rest }
      else
        astarLoopCame cm goal fuel
          (_NEIGHBORS.foldl
            (relaxNeighbor cm goal e.cell (alookup st.g e.cell))
            { st with open_ := rest }) := by
  conv_lhs => unfold astarLoopCame
  rw [hpop]

lemma astarLoopCame_inv (cm : CostmapData) (start goal : ℤ × ℤ)
    (pos : ∀ r c q, cm.costq r c = some q → 0 < q) :
    ∀ (fuel : ℕ) (st : AState) (came : List ((ℤ × ℤ) × (ℤ × ℤ))),
      AInv cm start st →
      astarLoopCame cm goal fuel st = some came →
      ∃ (st' : AState) (q : ℚ), AInv cm start st' ∧ came = st'.came ∧
        alookup st'.g goal = some q := by
  intro fuel
  induction fuel with
  | zero => intro st came _ h; simp [astarLoopCame] at h
  | succ fuel ih =>
    intro st came hinv hres
    cases hpop : popMin st.open_ with
    | none =>
      unfold astarLoopCame at hres
      rw [hpop] at hres
      simp at hres
    | some er =>
      obtain ⟨e, rest⟩ := er
      rw [astarLoopCame_succ_pop cm goal fuel st e rest hpop] at hres
      have hmem := popMin_mem st.open_ e rest hpop
      have hcg := hinv.open_g e hmem
      obtain ⟨cg, hcgv⟩ := Option.ne_none_iff_exists'.mp hcg
      by_cases hgoal : e.cell = goal
      · rw [if_pos hgoal] at hres
        rw [hgoal] at hcgv
        injection hres with h
        exact ⟨st, cg, hinv, h.symm, hcgv⟩
      · rw [if_neg hgoal] at hres
        rw [hcgv, qgtOpt_self, if_neg (by simp)] at hres
        have hrest : ∀ e' ∈ rest, e' ∈ st.open_ := by
          intro e' he'
          rw [popMin_rest st.open_ e rest hpop] at he'
          exact List.mem_of_mem_erase he'
        have hinv' : AInv cm start { st with open_ := rest } :=
          ⟨hinv.start_g, hinv.g_trav, hinv.came_g, hinv.came_adj,
            hinv.came_dec, hinv.root, fun e' he' => hinv.open_g e' (hrest e' he')⟩
        have hinv2 := foldl_relax_inv cm start goal e.cell cg pos _NEIGHBORS
          (fun nb h => h) { st with open_ := rest } hcgv hinv'
        exact ih _ came hinv2 hres

lemma chainIter_exits (cm : CostmapData) (start : ℤ × ℤ) (st : AState)
    (hinv : AInv cm start st) :
    ∀ (fuel : ℕ) (rc : ℤ × ℤ) (q : ℚ), alookup st.g rc = some q →
      gBelowCount st q < fuel → chainIter st.came (fuel + 1) rc = none := by
  intro fuel
  induction fuel with
  | zero => intro rc q hq hcount; omega
  | succ fuel ih =>
    intro rc q hq hcount
    cases hcame : alookup st.came rc with
    | none =>
      conv_lhs => unfold chainIter
      rw [hcame]
    | some p =>
      have hunf : chainIter st.came (fuel + 1 + 1) rc =
          chainIter st.came (fuel + 1) p := by
        conv_lhs => unfold chainIter
        rw [hcame]
      rw [hunf]
      have hpg := (hinv.came_g rc p hcame).2
      obtain ⟨qp, hqp⟩ := Option.ne_none_iff_exists'.mp hpg
      have hlt : qp < q := hinv.came_dec rc p q qp hcame hq hqp
      cases hcp : alookup st.came p with
      | none =>
        conv_lhs => unfold chainIter
        rw [hcp]
      | some pp =>
        have hmemp : (p, pp) ∈ st.came := alookup_mem _ _ _ hcp
        have himp : ∀ e : (ℤ × ℤ) × (ℤ × ℤ),
            (match alookup st.g e.1 with
              | some w => decide (w < qp)
              | none => false) = true →
            (match alookup st.g e.1 with
              | some w => decide (w < q)
              | none => false) = true := by
          intro e he
          cases hge : alookup st.g e.1 with
          | none => rw [hge] at he; simp at he
          | some w =>
            rw [hge] at he
            simp only [decide_eq_true_eq] at he ⊢
            linarith
        have hstrict : gBelowCount st qp < gBelowCount st q := by
          apply countP_lt_of_mem _ _ _ (p, pp) hmemp
          · show (match alookup st.g p with
              | some w => decide (w < qp)
              | none => false) = false
            rw [hqp]
            simp
          · show (match alookup st.g p with
              | some w => decide (w < q)
              | none => false) = true
            rw [hqp]
            simpa using hlt
          · exact himp
        exact ih p qp hqp (by omega)

/-- A 1x4 corridor costmap `G A B S` with one negative cell cost, `-3/2`
at `B = (0, 2)` (and `1/4` at the goal `G = (0, 0)`): running `astar` from
`S = (0, 3)` to `G` relaxes B from the start and A from B; popping
`A = (0, 1)` then relaxes the goal and — because the negative cost improves
the already-popped B — relaxes B again with parent A, closing the parent
cycle `A ↔ B` just before the goal is popped. -/
def cmC6x : CostmapData :=
  { height := 1, width := 4,
    occ := [[false, false, false, false]],
    costq := fun r c =>
      if r = 0 ∧ c = 0 then some (1/4)
      else if r = 0 ∧ c = 1 then some 1
      else if r = 0 ∧ c = 2 then some (-3/2)
      else if r = 0 ∧ c = 3 then some 1
      else none,
    origin := (0, 0), resolution := 1 }

/-- The parent map at the moment `astar` on `cmC6x` pops its goal. -/
def cameC6x : List ((ℤ × ℤ) × (ℤ × ℤ)) :=
  [((0, 2), (0, 1)), ((0, 0), (0, 1)), ((0, 3), (0, 2)),
   ((0, 1), (0, 2)), ((0, 2), (0, 3))]

/-- C6 (counterexample): `astar` does not terminate on every costmap.  On
`cmC6x` the goal `(0, 0)` is popped while `came_from` maps
`(0,0) ↦ (0,1)`, `(0,1) ↦ (0,2)` and `(0,2) ↦ (0,1)`, so the program's
unbounded reconstruction loop `while (r, c) in came_from` cycles between
`(0,1)` and `(0,2)` forever: the program hangs instead of returning a path
or the sentinel. -/
theorem C6_counterexample :
    astarCame cmC6x (0, 3) (0, 0) 500000 = some (cameC6x, (0, 0)) ∧
    alookup cameC6x (0, 0) = some (0, 1) ∧
    alookup cameC6x (0, 1) = some (0, 2) ∧
    alookup cameC6x (0, 2) = some (0, 1) ∧
    reconDiverges cameC6x (0, 0) := by
  refine ⟨?_, by decide, by decide, by decide, ?_⟩
  · set_option maxRecDepth 1000000 in with_unfolding_all decide
  · exact reconDiverges_of_cycle cameC6x (0, 0) (0, 1) (0, 2)
      (by decide) (by decide) (by decide)

/-- C6, amended: `astar` returns `none` exactly through its three failure
sites — an unrescued start, an unrescued goal, an empty open set or a spent
iteration bound — and the best-first search itself is iteration-bounded;
but the program's path-reconstruction loop `while (r, c) in came_from` is
not bounded and terminates only when the parent map is acyclic.  With
positive costs the parent links strictly decrease the g-score, so the
reconstruction leaves the parent map within `came.length + 2` lookups of
the popped goal and `astar` returns `none` or a nonempty path; with a
negative cost the parent map can close a cycle and the reconstruction runs
forever (`cmC6x`). -/
theorem C6_astar_failure_modes (cm : CostmapData) (start goal : ℤ × ℤ)
    (maxIter : ℕ) :
    ((∀ r c q, cm.costq r c = some q → 0 < q) →
      astar cm start goal maxIter = none ∨
        ∃ p, astar cm start goal maxIter = some p ∧ p ≠ []) ∧
    (cm.is_traversable start.1 start.2 = false →
      _find_nearest_free cm start.1 start.2 20 = none →
      astar cm start goal maxIter = none) ∧
    (cm.is_traversable goal.1 goal.2 = false →
      _find_nearest_free cm goal.1 goal.2 20 = none →
      astar cm start goal maxIter = none) ∧
    (∀ st : AState, st.open_ = [] →
      astarLoop cm goal maxIter st = none) ∧
    astar cm start goal 0 = none ∧
    (∀ came gg, (∀ r c q, cm.costq r c = some q → 0 < q) →
      astarCame cm start goal maxIter = some (came, gg) →
      chainIter came (came.length + 2) gg = none) := by
  refine ⟨?_, ?_, ?_, ?_, ?_, ?_⟩
  · intro _pos
    cases hres : astar cm start goal maxIter with
    | none => exact Or.inl rfl
    | some p =>
      refine Or.inr ⟨p, rfl, ?_⟩
      unfold astar at hres
      cases hs : (if cm.is_traversable start.1 start.2 then some start
          else _find_nearest_free cm start.1 start.2 20) with
      | none => rw [hs] at hres; simp at hres
      | some s =>
        rw [hs] at hres
        cases hg : (if cm.is_traversable goal.1 goal.2 then some goal
            else _find_nearest_free cm goal.1 goal.2 20) with
        | none => rw [hg] at hres; simp at hres
        | some gl =>
          rw [hg] at hres
          simp only at hres
          exact astarLoop_some_ne_nil cm gl maxIter _ p hres
  · intro hf hn
    unfold astar
    rw [if_neg (by rw [hf]; simp), hn]
  · intro hf hn
    unfold astar
    cases hs : (if cm.is_traversable start.1 start.2 then some start
        else _find_nearest_free cm start.1 start.2 20) with
    | none => rfl
    | some s =>
      rw [if_neg (by rw [hf]; simp), hn]
  · intro st h
    cases maxIter with
    | zero => rfl
    | succ n =>
      unfold astarLoop
      rw [h]
      rfl
  · unfold astar
    cases (if cm.is_traversable start.1 start.2 then some start
        else _find_nearest_free cm start.1 start.2 20) with
    | none => rfl
    | some s =>
      cases (if cm.is_traversable goal.1 goal.2 then some goal
          else _find_nearest_free cm goal.1 goal.2 20) with
      | none => rfl
      | some gl => rfl
  · intro came gg pos hres
    unfold astarCame at hres
    cases hs : (if cm.is_traversable start.1 start.2 then some start
        else _find_nearest_free cm start.1 start.2 20) with
    | none => rw [hs] at hres; simp at hres
    | some s =>
      rw [hs] at hres
      cases hg : (if cm.is_traversable goal.1 goal.2 then some goal
          else _find_nearest_free cm goal.1 goal.2 20) with
      | none => rw [hg] at hres; simp at hres
      | some gl =>
        rw [hg] at hres
        simp only [Option.map_eq_some'] at hres
        obtain ⟨came0, hloop, heq⟩ := hres
        rw [Prod.mk.injEq] at heq
        obtain ⟨hc0, hgl⟩ := heq
        subst hc0
        subst hgl
        have hstrav := rescue_traversable cm start s hs
        have hinv0 : AInv cm s
            { open_ := [⟨0, hsq s gl, 0, s⟩], came := [], g := [(s, 0)],
              counter := 0 } := by
          refine ⟨?_, ?_, ?_, ?_, ?_, ?_, ?_⟩
          · show alookup [(s, (0 : ℚ))] s ≠ none
            rw [alookup_cons, if_pos rfl]
            simp
          · intro n q h
            rw [alookup_cons] at h
            split_ifs at h with hn
            · rw [← hn]; exact hstrav
            · simp [alookup] at h
          · intro n q h
            simp [alookup] at h
          · intro n q h
            simp [alookup] at h
          · intro n pp qn qp h
            simp [alookup] at h
          · intro n q h
            rw [alookup_cons] at h
            split_ifs at h with hn
            · exact Or.inl hn.symm
            · simp [alookup] at h
          · intro e he
            simp at he
            rw [he]
            show alookup [(s, (0 : ℚ))] s ≠ none
            rw [alookup_cons, if_pos rfl]
            simp
        obtain ⟨st', q, hinv', hceq, hq⟩ :=
          astarLoopCame_inv cm s gl pos maxIter _ came0 hinv0 hloop
        subst hceq
        have hcount : gBelowCount st' q < st'.came.length + 1 := by
          have := List.countP_le_length (l := st'.came)
            (p := fun e : (ℤ × ℤ) × (ℤ × ℤ) =>
              match alookup st'.g e.1 with
              | some w => decide (w < q)
              | none => false)
          unfold gBelowCount
          omega
        exact chainIter_exits cm s st' hinv' (st'.came.length + 1) gl q hq hcount

/-- A fully lethal costmap: no traversable cell anywhere, so endpoint rescue
must fail. -/
def cmWall : CostmapData :=
  { height := 2, width := 2, occ := [[true, true], [true, true]],
    costq := fun _ _ => none, origin := (0, 0), resolution := 1 }

/-- A 1x1 all-free costmap with cost 1: `astar` pops the goal immediately
with an empty parent map. -/
def cmC6w : CostmapData :=
  { height := 1, width := 1, occ := [[false]],
    costq := fun r c => if r = 0 ∧ c = 0 then some 1 else none,
    origin := (0, 0), resolution := 1 }

theorem C6_witness :
    astar cmWall (0, 0) (1, 1) 500000 = none ∧
    astar cmWall (5, 5) (0, 0) 500000 = none ∧
    astarLoop cmWall (0, 0) 500000
      { open_ := [], came := [], g := [], counter := 0 } = none ∧
    chainIter [] 2 ((0 : ℤ), (0 : ℤ)) = none := by
  refine ⟨?_, ?_, ?_, ?_⟩
  · exact (C6_astar_failure_modes cmWall (0, 0) (1, 1) 500000).2.1
      (by with_unfolding_all decide) (by with_unfolding_all decide)
  · exact (C6_astar_failure_modes cmWall (5, 5) (0, 0) 500000).2.2.1
      (by with_unfolding_all decide) (by with_unfolding_all decide)
  · exact (C6_astar_failure_modes cmWall (0, 0) (0, 0) 500000).2.2.2.1
      _ rfl
  · exact (C6_astar_failure_modes cmC6w (0, 0) (0, 0) 500000).2.2.2.2.2
      [] (0, 0)
      (fun r c q h => by
        unfold cmC6w at h
        simp only at h
        split_ifs at h with hcond
        · injection h with h
          rw [← h]
          norm_num)
      (by set_option maxRecDepth 1000000 in with_unfolding_all decide)

/-! ### Multi-waypoint routing (claim C4) -/

/-- A waypoint `{slam_x, slam_y, level}`. -/
structure Waypoint where
  slam_x : ℚ
  slam_y : ℚ
  level : ℤ
  deriving DecidableEq

/-- A transition record `{from_level, to_level, x, y}`. -/
structure Transition where
  from_level : ℤ
  to_level : ℤ
  x : ℚ
  y : ℚ
  deriving DecidableEq

/-- The `start_wp` / `end_wp` tags a segment may carry: a waypoint index or
the string `'transition'`. -/
inductive WpRef
  | idx (i : ℕ)
  | transition
  deriving DecidableEq

/-- A route segment dict; keys that a branch does not set stay `none`
(`is_transition` defaults to false). -/
structure Segment where
  path : List (ℚ × ℚ × ℤ)
  distance_m : ℝ
  start_wp : Option WpRef := none
  end_wp : Option WpRef := none
  is_transition : Bool := false
  from_level : Option ℤ := none
  to_level : Option ℤ := none

/-- The result dict of `route_through_waypoints`. -/
structure RouteResult where
  path : List (ℚ × ℚ × ℤ)
  segments : List Segment
  total_distance_m : ℝ
  levels_used : List ℤ

/-- Euclidean length of a world-coordinate path (the running sum of
`math.sqrt((x - px)**2 + (y - py)**2)` in `_route_same_level`). -/
noncomputable def pathDistance (pw : List (ℚ × ℚ × ℤ)) : ℝ :=
  ((pw.zip pw.tail).map (fun ab =>
    Real.sqrt (((ab.2.1 - ab.1.1 : ℚ) : ℝ) ^ 2 +
      ((ab.2.2.1 - ab.1.2.1 : ℚ) : ℝ) ^ 2))).sum

/-- `_find_transition`: first record connecting the two levels, either way. -/
def _find_transition (transitions : List Transition)
    (from_level to_level : ℤ) : Option Transition :=
  transitions.find? fun t =>
    decide ((t.from_level = from_level ∧ t.to_level = to_level) ∨
      (t.from_level = to_level ∧ t.to_level = from_level))

/-- `_route_same_level`: A* between the two waypoint cells, smoothing, and
conversion to world coordinates with the accumulated Euclidean distance. -/
noncomputable def _route_same_level (cm : CostmapData)
    (wp_a wp_b : Waypoint) (level : ℤ) : Option Segment :=
  match astar cm
      (world_to_cell wp_a.slam_x wp_a.slam_y cm.origin cm.resolution)
      (world_to_cell wp_b.slam_x wp_b.slam_y cm.origin cm.resolution)
      500000 with
  | none => none
  | some path_cells =>
    let path_world := (smooth_path path_cells cm 1).map fun rc =>
      ((cell_to_world rc.1 rc.2 cm.origin cm.resolution).1,
        (cell_to_world rc.1 rc.2 cm.origin cm.resolution).2, level)
    some { path := path_world, distance_m := pathDistance path_world }

/-- `levels_used.add` on the set of levels, modelled as a duplicate-free
list. -/
def addLevel (l : List ℤ) (x : ℤ) : List ℤ := if x ∈ l then l else l ++ [x]

def insertSortedInt (x : ℤ) : List ℤ → List ℤ
  | [] => [x]
  | y :: ys => if x ≤ y then x :: y :: ys else y :: insertSortedInt x ys

/-- `sorted(...)` on the accumulated level set. -/
def sortInts : List ℤ → List ℤ
  | [] => []
  | x :: xs => insertSortedInt x (sortInts xs)

/-- The waypoint-pair loop of `route_through_waypoints`, carrying the pair
index and the four accumulators.  A missing level key — where Python would
raise `KeyError` — is modelled as failure. -/
noncomputable def routeAux (lcms : ℤ → Option CostmapData)
    (transitions : List Transition) :
    ℕ → List Waypoint → List (ℚ × ℚ × ℤ) → List Segment → ℝ → List ℤ →
    Option (List (ℚ × ℚ × ℤ) × List Segment × ℝ × List ℤ)
  | _, [], all_path, segments, total, levels =>
    some (all_path, segments, total, levels)
  | _, [_], all_path, segments, total, levels =>
    some (all_path, segments, total, levels)
  | i, wp_a :: wp_b :: rest, all_path, segments, total, levels =>
    if wp_a.level = wp_b.level then
      match lcms wp_a.level with
      | none => none
      | some cm =>
        match _route_same_level cm wp_a wp_b wp_a.level with
        | none => none
        | some seg =>
          routeAux lcms transitions (i + 1) (wp_b :: rest)
            (all_path ++ (if all_path.isEmpty then seg.path
              else seg.path.tail))
            (segments ++ [seg]) (total + seg.distance_m)
            (addLevel levels wp_a.level)
    else
      if transitions.isEmpty then none
      else
        match _find_transition transitions wp_a.level wp_b.level with
        | none => none
        | some t =>
          match lcms wp_a.level with
          | none => none
          | some cma =>
            match _route_same_level cma wp_a ⟨t.x, t.y, wp_a.level⟩
                wp_a.level with
            | none => none
            | some seg1 =>
              match lcms wp_b.level with
              | none => none
              | some cmb =>
                match _route_same_level cmb ⟨t.x, t.y, wp_b.level⟩ wp_b
                    wp_b.level with
                | none => none
                | some seg2 =>
                  routeAux lcms transitions (i + 1) (wp_b :: rest)
                    (all_path ++
                      (if all_path.isEmpty then
                        ({ seg1 with
                            start_wp := some (WpRef.idx i)
                            end_wp := some WpRef.transition } : Segment).path
                        else ({ seg1 with
                            start_wp := some (WpRef.idx i)
                            end_wp := some WpRef.transition } :
                            Segment).path.tail) ++
                      [((t.x, t.y, wp_b.level) : ℚ × ℚ × ℤ)] ++
                      seg2.path.tail)
                    (segments ++
                      [{ seg1 with
                          start_wp := some (WpRef.idx i)
                          end_wp := some WpRef.transition },
                        { path := [(t.x, t.y, wp_a.level),
                            (t.x, t.y, wp_b.level)],
                          distance_m := 0,
                          start_wp := some (WpRef.idx i),
                          end_wp := some (WpRef.idx (i + 1)),
                          is_transition := true,
                          from_level := some wp_a.level,
                          to_level := some wp_b.level },
                        { seg2 with
                          start_wp := some WpRef.transition
                          end_wp := some (WpRef.idx (i + 1)) }])
                    (total + (seg1.distance_m + seg2.distance_m))
                    (addLevel (addLevel levels wp_a.level) wp_b.level)

/-- `route_through_waypoints` of `src/routing/engine.py`. -/
noncomputable def route_through_waypoints (lcms : ℤ → Option CostmapData)
    (waypoints : List Waypoint) (transitions : List Transition) :
    Option RouteResult :=
  if waypoints.length < 2 then none
  else
    match routeAux lcms transitions 0 waypoints [] [] 0 [] with
    | none => none
    | some (all_path, segments, total, levels) =>
      some { path := all_path, segments := segments,
             total_distance_m := total, levels_used := sortInts levels }

/-- C4: a successful two-waypoint route across two different levels contains
exactly three segments: the two sub-routes around a zero-distance transition
segment whose two path points sit at the transition coordinates on level A
and level B, and the total distance is the sum of the two sub-route
distances. -/
theorem C4_route_transition_segment (lcms : ℤ → Option CostmapData)
    (wp_a wp_b : Waypoint) (transitions : List Transition)
    (res : RouteResult) (hlvl : wp_a.level ≠ wp_b.level)
    (hres : route_through_waypoints lcms [wp_a, wp_b] transitions =
      some res) :
    ∃ (t : Transition) (seg1 seg2 : Segment),
      _find_transition transitions wp_a.level wp_b.level = some t ∧
      res.segments = [seg1,
        { path := [(t.x, t.y, wp_a.level), (t.x, t.y, wp_b.level)],
          distance_m := 0,
          start_wp := some (WpRef.idx 0),
          end_wp := some (WpRef.idx 1),
          is_transition := true,
          from_level := some wp_a.level,
          to_level := some wp_b.level }, seg2] ∧
      res.total_distance_m = seg1.distance_m + seg2.distance_m := by
  unfold route_through_waypoints at hres
  rw [if_neg (by norm_num)] at hres
  cases haux : routeAux lcms transitions 0 [wp_a, wp_b] [] [] 0 [] with
  | none => rw [haux] at hres; simp at hres
  | some quad =>
    rw [haux] at hres
    obtain ⟨ap, segs, tot, lvls⟩ := quad
    simp only at hres
    injection hres with hres
    -- analyse the single loop iteration
    unfold routeAux at haux
    rw [if_neg hlvl] at haux
    by_cases hemp : transitions.isEmpty = true
    · rw [if_pos hemp] at haux; simp at haux
    · rw [if_neg hemp] at haux
      cases hft : _find_transition transitions wp_a.level wp_b.level with
      | none => simp only [hft] at haux; simp at haux
      | some t =>
        simp only [hft] at haux
        cases hca : lcms wp_a.level with
        | none => simp only [hca] at haux; simp at haux
        | some cma =>
          simp only [hca] at haux
          cases hs1 : _route_same_level cma wp_a ⟨t.x, t.y, wp_a.level⟩
              wp_a.level with
          | none => simp only [hs1] at haux; simp at haux
          | some seg1 =>
            simp only [hs1] at haux
            cases hcb : lcms wp_b.level with
            | none => simp only [hcb] at haux; simp at haux
            | some cmb =>
              simp only [hcb] at haux
              cases hs2 : _route_same_level cmb ⟨t.x, t.y, wp_b.level⟩
                  wp_b wp_b.level with
              | none => simp only [hs2] at haux; simp at haux
              | some seg2 =>
                simp only [hs2] at haux
                -- the recursive call on [wp_b] returns its accumulators
                unfold routeAux at haux
                injection haux with haux
                refine ⟨t, { seg1 with
                    start_wp := some (WpRef.idx 0)
                    end_wp := some WpRef.transition },
                  { seg2 with
                      start_wp := some WpRef.transition
                      end_wp := some (WpRef.idx 1) }, rfl, ?_, ?_⟩
                · rw [← hres]
                  have h2 := congrArg (fun q :
                    List (ℚ × ℚ × ℤ) × List Segment × ℝ × List ℤ =>
                      q.2.1) haux
                  simp only at h2
                  rw [← h2]
                  simp
                · rw [← hres]
                  have h3 := congrArg (fun q :
                    List (ℚ × ℚ × ℤ) × List Segment × ℝ × List ℤ =>
                      q.2.2.1) haux
                  simp only at h3
                  rw [← h3]
                  simp

/-- A single-free-cell costmap used on both levels of the C4 witness. -/
def cmLvl : CostmapData :=
  { height := 1, width := 1, occ := [[false]],
    costq := fun r c => if r = 0 ∧ c = 0 then some 1 else none,
    origin := (0, 0), resolution := 1 }

def lcmsW : ℤ → Option CostmapData := fun l =>
  if l = 0 ∨ l = 1 then some cmLvl else none

def wpA : Waypoint := ⟨0, 0, 0⟩

def wpB : Waypoint := ⟨0, 0, 1⟩

def tsW : List Transition := [⟨0, 1, 0, 0⟩]

theorem C4_witness :
    (_find_transition tsW wpA.level wpB.level).isSome = true := by
  have hs : (route_through_waypoints lcmsW [wpA, wpB] tsW).isSome = true := by
    set_option maxRecDepth 1000000 in with_unfolding_all rfl
  obtain ⟨r, hr⟩ := Option.isSome_iff_exists.mp hs
  obtain ⟨t, s1, s2, h1, -, -⟩ :=
    C4_route_transition_segment lcmsW wpA wpB tsW r
      (by with_unfolding_all decide) hr
  rw [h1]
  rfl

/-! ### Compass conversion (claim C7, `src/routing/instructions.py`) -/

/-- `_COMPASS_POINTS`: the 16-point compass rose. -/
def _COMPASS_POINTS : List String :=
  ["N", "NNE", "NE", "ENE", "E", "ESE", "SE", "SSE",
   "S", "SSW", "SW", "WSW", "W", "WNW", "NW", "NNW"]

/-- Python `round` on a real value: round half to even. -/
noncomputable def pyRoundR (x : ℝ) : ℤ :=
  if x - ⌊x⌋ < 1/2 then ⌊x⌋
  else if 1/2 < x - ⌊x⌋ then ⌊x⌋ + 1
  else if ⌊x⌋ % 2 = 0 then ⌊x⌋ else ⌊x⌋ + 1

/-- `_compass_name`: degrees (0 = N, 90 = E, clockwise) to a compass point
name via `int(round(degrees / 22.5)) % 16`. -/
noncomputable def _compass_name (degrees : ℝ) : String :=
  _COMPASS_POINTS.getD (pyRoundR (degrees / (45 / 2)) % 16).toNat ""

/-- Python `%` on floats with a positive divisor: `a - b * ⌊a / b⌋`. -/
noncomputable def pyFMod (a b : ℝ) : ℝ := a - b * ⌊a / b⌋

/-- `math.degrees`. -/
noncomputable def degOfRad (x : ℝ) : ℝ := x * 180 / Real.pi

/-- `_slam_heading_to_compass`:
`compass = (heading_offset_deg - slam_deg) % 360`. -/
noncomputable def _slam_heading_to_compass
    (slam_heading_rad heading_offset_deg : ℝ) : ℝ :=
  pyFMod (heading_offset_deg - degOfRad slam_heading_rad) 360

lemma pyRoundR_add_even (x : ℝ) (n : ℤ) (hn : n % 2 = 0) :
    pyRoundR (x + n) = pyRoundR x + n := by
  unfold pyRoundR
  rw [Int.floor_add_int]
  have hfr : x + (n : ℝ) - ((⌊x⌋ + n : ℤ) : ℝ) = x - ⌊x⌋ := by
    push_cast
    ring
  rw [hfr]
  by_cases h1 : x - ⌊x⌋ < 1/2
  · rw [if_pos h1, if_pos h1]
  · rw [if_neg h1, if_neg h1]
    by_cases h2 : 1/2 < x - ⌊x⌋
    · rw [if_pos h2, if_pos h2]
      ring
    · rw [if_neg h2, if_neg h2]
      have hp : (⌊x⌋ + n) % 2 = ⌊x⌋ % 2 := by omega
      rw [hp]
      by_cases h3 : ⌊x⌋ % 2 = 0
      · rw [if_pos h3, if_pos h3]
      · rw [if_neg h3, if_neg h3]
        ring

/-- C7: the compass conversion is `(offset - slam_deg) mod 360`: with offset
0 an in-cave heading of 0 rad maps to 0° which is named `N`; an in-cave
heading of 90° (π/2 rad) maps to 270° which is named `W`; and the 16-point
naming function is invariant under adding any whole number of turns. -/
theorem C7_compass_conversion (d : ℝ) (k : ℤ) :
    _slam_heading_to_compass 0 0 = 0 ∧
    _compass_name 0 = "N" ∧
    _slam_heading_to_compass (Real.pi / 2) 0 = 270 ∧
    _compass_name 270 = "W" ∧
    _compass_name (d + 360 * k) = _compass_name d := by
  refine ⟨?_, ?_, ?_, ?_, ?_⟩
  · unfold _slam_heading_to_compass pyFMod degOfRad
    norm_num
  · unfold _compass_name pyRoundR
    norm_num
    rfl
  · unfold _slam_heading_to_compass pyFMod degOfRad
    have hpi : Real.pi ≠ 0 := Real.pi_ne_zero
    have hdeg : Real.pi / 2 * 180 / Real.pi = 90 := by
      field_simp
      ring
    rw [hdeg]
    have hfl : ⌊(0 - 90 : ℝ) / 360⌋ = -1 := by
      rw [Int.floor_eq_iff]
      norm_num
    rw [hfl]
    norm_num
  · unfold _compass_name
    have h12 : (270 : ℝ) / (45 / 2) = ((12 : ℤ) : ℝ) := by norm_num
    rw [h12]
    have hr : pyRoundR ((12 : ℤ) : ℝ) = 12 := by
      unfold pyRoundR
      rw [Int.floor_intCast]
      norm_num
    rw [hr]
    rfl
  · unfold _compass_name
    have harg : (d + 360 * k) / (45 / 2) = d / (45 / 2) + ((16 * k : ℤ) : ℝ) := by
      push_cast
      ring
    rw [harg, pyRoundR_add_even _ _ (by omega)]
    have hmod : (pyRoundR (d / (45 / 2)) + 16 * k) % 16 =
        pyRoundR (d / (45 / 2)) % 16 := by
      omega
    rw [hmod]

/-! ### Costmap construction (claims C9, `src/routing/engine.py` lines
110-197).  The two scipy distance transforms are modelled exactly on inputs
that contain a background pixel (the minimum Euclidean distance to a zero
pixel); on an input with no background pixel `distance_transform_edt`'s
behaviour is undocumented, so the construction takes the values it would
produce there as explicit parameters (`fbW`, `fbT`) instead of stipulating
them. -/

/-- Membership of index `i` in the numpy basic slice `start:stop` of an axis
of length `n`. -/
def inSlice (n : ℕ) (start stop : ℤ) (i : ℤ) : Bool :=
  decide (((pySliceBounds n start stop).1 : ℤ) ≤ i ∧
    i < ((pySliceBounds n start stop).2 : ℤ))

/-- One `binary_dilation` step with the full 3x3 structuring element
(`generate_binary_structure(2, 2)`) and zero border value, restricted to the
array domain. -/
def dilStep (h w : ℤ) (f : ℤ → ℤ → Bool) : ℤ → ℤ → Bool :=
  fun r c =>
    if 0 ≤ r ∧ r < h ∧ 0 ≤ c ∧ c < w then
      [(-1 : ℤ), 0, 1].any fun dr =>
        [(-1 : ℤ), 0, 1].any fun dc => f (r + dr) (c + dc)
    else false

/-- `binary_dilation(..., iterations = n)`. -/
def iterDil (h w : ℤ) (f : ℤ → ℤ → Bool) : ℕ → ℤ → ℤ → Bool
  | 0 => f
  | n + 1 => dilStep h w (iterDil h w f n)

/-- `max(1, int(round(inflation_radius_m / resolution)))`. -/
def inflationCells (res irm : ℚ) : ℕ :=
  (max 1 (pyRound (irm / res))).toNat

/-- The protection step of `Costmap.__init__`:
`inflated[r_min:r_max, c_min:c_max] = False` for one trajectory point, with
`r_min = max(0, r-2)`, `r_max = min(height, r+3)` and likewise for columns
(numpy slice semantics on the declared shape). -/
def protectPoint (og : OccupancyGrid) (f : ℤ → ℤ → Bool) (p : ℚ × ℚ) :
    ℤ → ℤ → Bool :=
  fun r c =>
    if (inSlice og.height.toNat
          (max 0 ((world_to_cell p.1 p.2 og.origin og.resolution).1 - 2))
          (min og.height ((world_to_cell p.1 p.2 og.origin og.resolution).1 + 3)) r &&
        inSlice og.width.toNat
          (max 0 ((world_to_cell p.1 p.2 og.origin og.resolution).2 - 2))
          (min og.width ((world_to_cell p.1 p.2 og.origin og.resolution).2 + 3)) c) = true
    then false else f r c

/-- The trajectory-corridor step of `Costmap.__init__`:
`traj_mask[r_min:r_max, c_min:c_max] = True` for one trajectory point, with
`r_min = max(0, r-1)`, `r_max = min(height, r+2)` and likewise for columns. -/
def trajMaskPoint (og : OccupancyGrid) (f : ℤ → ℤ → Bool) (p : ℚ × ℚ) :
    ℤ → ℤ → Bool :=
  fun r c =>
    if (inSlice og.height.toNat
          (max 0 ((world_to_cell p.1 p.2 og.origin og.resolution).1 - 1))
          (min og.height ((world_to_cell p.1 p.2 og.origin og.resolution).1 + 2)) r &&
        inSlice og.width.toNat
          (max 0 ((world_to_cell p.1 p.2 og.origin og.resolution).2 - 1))
          (min og.width ((world_to_cell p.1 p.2 og.origin og.resolution).2 + 2)) c) = true
    then true else f r c

/-- The `inflated` array: dilation of the occupancy grid followed by the
trajectory protection pass. -/
def inflatedMask (og : OccupancyGrid) (irm : ℚ) (traj : List (ℚ × ℚ)) :
    ℤ → ℤ → Bool :=
  traj.foldl (protectPoint og)
    (iterDil og.height og.width (fun r c => occGet og.grid r c)
      (inflationCells og.resolution irm))

/-- The `traj_mask` array. -/
def trajMaskOf (og : OccupancyGrid) (traj : List (ℚ × ℚ)) : ℤ → ℤ → Bool :=
  traj.foldl (trajMaskPoint og) (fun _ _ => false)

/-- All cell indices of an `h x w` array. -/
def cellList (h w : ℤ) : List (ℤ × ℤ) :=
  ((List.range h.toNat).map fun r =>
    (List.range w.toNat).map fun c => ((r : ℤ), (c : ℤ))).flatten

/-- Squared Euclidean distance from `(r, c)` to the nearest background
(`bg = true`) cell, `none` when the array has no background cell. -/
def edtSq (h w : ℤ) (bg : ℤ → ℤ → Bool) (r c : ℤ) : Option ℕ :=
  (((cellList h w).filter fun p => bg p.1 p.2).map
    fun p => ((r - p.1) ^ 2 + (c - p.2) ^ 2).toNat).min?

/-- `distance_transform_edt(...) * resolution` in metres: the exact
Euclidean distance when a background cell exists, the caller-supplied
fallback value on the undocumented no-background input. -/
noncomputable def edtDist (h w : ℤ) (bg : ℤ → ℤ → Bool) (res : ℚ)
    (fb : ℤ → ℤ → ℝ) (r c : ℤ) : ℝ :=
  match edtSq h w bg r c with
  | some n => Real.sqrt n * (res : ℝ)
  | none => fb r c

/-- `wall_penalty`: `np.where(wall_dist > 0, 1 + 4*exp(-d/0.3), 1.0)`. -/
noncomputable def wall_penalty (d : ℝ) : ℝ :=
  if 0 < d then 1 + 4 * Real.exp (-d / (3 / 10)) else 1

/-- `traj_penalty = 1 + 50*(1 - exp(-d/0.5))`. -/
noncomputable def traj_penalty (d : ℝ) : ℝ :=
  1 + 50 * (1 - Real.exp (-d / (1 / 2)))

/-- The constructed costmap: declared shape, geometry and the per-cell cost
array (`none` models `np.inf`). -/
structure Costmap where
  height : ℤ
  width : ℤ
  resolution : ℚ
  origin : ℚ × ℚ
  cost : ℤ → ℤ → Option ℝ

/-- `Costmap.__init__`: inflate obstacles, protect trajectory cells, take
the two distance transforms, and set
`cost = wall_penalty * traj_penalty` on non-inflated cells, `inf`
(= `none`) on inflated cells. -/
noncomputable def Costmap.init (og : OccupancyGrid) (irm : ℚ)
    (traj : List (ℚ × ℚ)) (fbW fbT : ℤ → ℤ → ℝ) : Costmap :=
  { height := og.height
    width := og.width
    resolution := og.resolution
    origin := og.origin
    cost := fun r c =>
      if 0 ≤ r ∧ r < og.height ∧ 0 ≤ c ∧ c < og.width ∧
          inflatedMask og irm traj r c = false then
        some (wall_penalty
            (edtDist og.height og.width (fun a b => occGet og.grid a b)
              og.resolution fbW r c) *
          traj_penalty
            (edtDist og.height og.width (trajMaskOf og traj)
              og.resolution fbT r c))
      else none }

/-- `Costmap.is_traversable` on the constructed costmap. -/
def Costmap.is_traversable (cm : Costmap) (row col : ℤ) : Bool :=
  decide (0 ≤ row ∧ row < cm.height ∧ 0 ≤ col ∧ col < cm.width) &&
    (cm.cost row col).isSome

lemma wall_penalty_ge_one (d : ℝ) : 1 ≤ wall_penalty d := by
  unfold wall_penalty
  split_ifs with h
  · have he := Real.exp_pos (-d / (3 / 10))
    linarith
  · exact le_refl 1

lemma traj_penalty_ge_one (d : ℝ) (hd : 0 ≤ d) : 1 ≤ traj_penalty d := by
  unfold traj_penalty
  have hle : -d / (1 / 2) ≤ 0 :=
    div_nonpos_of_nonpos_of_nonneg (by linarith) (by norm_num)
  have he : Real.exp (-d / (1 / 2)) ≤ 1 := by
    have := Real.exp_le_exp.mpr hle
    rwa [Real.exp_zero] at this
  linarith

lemma edtDist_nonneg (h w : ℤ) (bg : ℤ → ℤ → Bool) (res : ℚ)
    (fb : ℤ → ℤ → ℝ) (r c : ℤ) (hres : 0 ≤ res)
    (hfb : ∀ a b, 0 ≤ fb a b) : 0 ≤ edtDist h w bg res fb r c := by
  unfold edtDist
  cases hE : edtSq h w bg r c with
  | none => exact hfb r c
  | some n =>
    exact mul_nonneg (Real.sqrt_nonneg _) (by exact_mod_cast hres)

def og9 : OccupancyGrid :=
  { origin := (0, 0)
    resolution := -1
    width := 4
    height := 1
    grid := [[true, false, false, false]] }

/-- C9 (counterexample): the cost lower bound 1 fails without a sign
assumption on the resolution.  On a 1x4 grid with resolution -1, occupied
cell (0,0) and one trajectory point at cell (0,3), the cell (0,1) is
traversable (finite cost) but its cost is below 1: both distance fields at
that cell are `sqrt(1) * (-1) = -1`, so the wall penalty is 1 (the
`np.where` guard fails) while the trajectory penalty is
`1 + 50*(1 - exp(2)) < 1`. -/
theorem C9_counterexample :
    (Costmap.init og9 (2/25) [(-3, 0)] (fun _ _ => 0) (fun _ _ => 0)).is_traversable 0 1 = true ∧
    ((Costmap.init og9 (2/25) [(-3, 0)] (fun _ _ => 0) (fun _ _ => 0)).cost 0 1).getD 1 < 1 := by
  have hW : edtSq og9.height og9.width (fun a b => occGet og9.grid a b) 0 1 = some 1 := by
    with_unfolding_all decide
  have hT : edtSq og9.height og9.width (trajMaskOf og9 [(-3, 0)]) 0 1 = some 1 := by
    set_option maxRecDepth 1000000 in with_unfolding_all decide
  have hWd : edtDist og9.height og9.width (fun a b => occGet og9.grid a b)
      og9.resolution (fun _ _ => 0) 0 1 = -1 := by
    simp only [edtDist, hW]
    norm_num [og9, Real.sqrt_one]
  have hTd : edtDist og9.height og9.width (trajMaskOf og9 [(-3, 0)])
      og9.resolution (fun _ _ => 0) 0 1 = -1 := by
    simp only [edtDist, hT]
    norm_num [og9, Real.sqrt_one]
  have hcond : (0 : ℤ) ≤ 0 ∧ (0 : ℤ) < og9.height ∧ (0 : ℤ) ≤ 1 ∧ (1 : ℤ) < og9.width ∧
      inflatedMask og9 (2/25) [(-3, 0)] 0 1 = false := by
    refine ⟨le_refl 0, by with_unfolding_all decide, by with_unfolding_all decide,
      by with_unfolding_all decide, ?_⟩
    set_option maxRecDepth 1000000 in with_unfolding_all decide
  have hc : (Costmap.init og9 (2/25) [(-3, 0)] (fun _ _ => 0) (fun _ _ => 0)).cost 0 1
      = some (wall_penalty (-1) * traj_penalty (-1)) := by
    simp only [Costmap.init]
    rw [if_pos hcond, hWd, hTd]
  constructor
  · simp only [Costmap.is_traversable, hc]
    with_unfolding_all decide
  · rw [hc]
    simp only [Option.getD_some]
    have hwp : wall_penalty (-1) = 1 := by
      unfold wall_penalty
      rw [if_neg (by norm_num)]
    have he : (1 : ℝ) < Real.exp (-(-1) / (1 / 2)) := by
      have h2 : (-(-1 : ℝ)) / (1 / 2) = 2 := by norm_num
      rw [h2]
      have := Real.add_one_le_exp (2 : ℝ)
      linarith
    rw [hwp]
    unfold traj_penalty
    nlinarith [he]

/-- C9 (amended): given a nonnegative resolution (and nonnegative values of
the undocumented no-background distance transform), every finite cost the
constructed costmap assigns is the product of the two penalty terms, each of
which is at least 1, so every traversable cell's cost is at least 1.
Without the sign assumption this fails (`C9_counterexample`). -/
theorem C9_cost_at_least_one (og : OccupancyGrid) (irm : ℚ)
    (traj : List (ℚ × ℚ)) (fbW fbT : ℤ → ℤ → ℝ)
    (hres : 0 ≤ og.resolution) (hfbT : ∀ a b, 0 ≤ fbT a b)
    (r c : ℤ) (x : ℝ)
    (hx : (Costmap.init og irm traj fbW fbT).cost r c = some x) :
    1 ≤ wall_penalty (edtDist og.height og.width
        (fun a b => occGet og.grid a b) og.resolution fbW r c) ∧
    1 ≤ traj_penalty (edtDist og.height og.width
        (trajMaskOf og traj) og.resolution fbT r c) ∧
    x = wall_penalty (edtDist og.height og.width
        (fun a b => occGet og.grid a b) og.resolution fbW r c) *
      traj_penalty (edtDist og.height og.width
        (trajMaskOf og traj) og.resolution fbT r c) ∧
    1 ≤ x := by
  have h1 := wall_penalty_ge_one (edtDist og.height og.width
    (fun a b => occGet og.grid a b) og.resolution fbW r c)
  have h2 := traj_penalty_ge_one (edtDist og.height og.width
    (trajMaskOf og traj) og.resolution fbT r c)
    (edtDist_nonneg og.height og.width (trajMaskOf og traj) og.resolution
      fbT r c hres hfbT)
  simp only [Costmap.init] at hx
  split at hx
  · have hx' := Option.some.inj hx
    refine ⟨h1, h2, hx'.symm, ?_⟩
    rw [← hx']
    nlinarith [h1, h2]
  · exact absurd hx (by simp)

def ogC9w : OccupancyGrid :=
  { origin := (0, 0)
    resolution := 1
    width := 4
    height := 1
    grid := [[true, false, false, false]] }

theorem C9_witness :
    0 ≤ ogC9w.resolution ∧
    1 ≤ ((Costmap.init ogC9w (2/25) [(3, 0)] (fun _ _ => 0) (fun _ _ => 0)).cost 0 1).getD 1 := by
  refine ⟨by norm_num [ogC9w], ?_⟩
  have hs : ((Costmap.init ogC9w (2/25) [(3, 0)] (fun _ _ => 0) (fun _ _ => 0)).cost 0 1).isSome = true := by
    set_option maxRecDepth 1000000 in with_unfolding_all rfl
  obtain ⟨x, hx⟩ := Option.isSome_iff_exists.mp hs
  obtain ⟨-, -, -, h1⟩ := C9_cost_at_least_one ogC9w (2/25) [(3, 0)] _ _
    (by norm_num [ogC9w]) (fun _ _ => le_refl 0) 0 1 x hx
  rw [hx]
  simpa using h1

/-! ### Junction detection (claim C8, `src/routing/junctions.py`).  The
optional costmap argument contributes only its precomputed `distance_field`,
so it is passed as an optional distance field; `fbD` supplies the values of
`distance_transform_edt` on the undocumented no-background input, as in the
costmap construction above. -/

/-- Integer range `[lo, hi)` as a list. -/
def rangeZ (lo hi : ℤ) : List ℤ :=
  (List.range (hi - lo).toNat).map fun i => lo + i

/-- The 8 neighbour offsets in the `dr`-major scan order of the source. -/
def nbOffsets : List (ℤ × ℤ) :=
  [(-1, -1), (-1, 0), (-1, 1), (0, -1), (0, 1), (1, -1), (1, 0), (1, 1)]

/-- The 4 perpendicular direction pairs of `_extract_skeleton`. -/
def ridgePairs : List ((ℤ × ℤ) × (ℤ × ℤ)) :=
  [((-1, 0), (1, 0)), ((0, -1), (0, 1)), ((-1, -1), (1, 1)), ((-1, 1), (1, -1))]

/-- The ridge-detection pass of `_extract_skeleton` (before thinning): an
interior cell is a skeleton cell if it is free, its distance-field value
reaches `max(1.0, min_width_cells * 0.5)`, and it is a local maximum of the
distance field along at least one perpendicular direction pair. -/
noncomputable def skeletonRaw (h w : ℤ) (free : ℤ → ℤ → Bool)
    (dist : ℤ → ℤ → ℝ) (min_width_cells : ℚ) : ℤ → ℤ → Bool :=
  fun r c =>
    decide (1 ≤ r ∧ r < h - 1 ∧ 1 ≤ c ∧ c < w - 1) &&
    free r c &&
    decide (max 1 ((min_width_cells : ℝ) * (1 / 2)) ≤ dist r c) &&
    ridgePairs.any fun pr =>
      decide (dist (r + pr.1.1) (c + pr.1.2) ≤ dist r c) &&
      decide (dist (r + pr.2.1) (c + pr.2.2) ≤ dist r c)

/-- One pass of `_thin_skeleton`: reads go to the pass's input array and
writes to its copy, so the pass is a pointwise update.  An interior skeleton
cell with exactly two skeleton neighbours is removed unless the two
neighbour offsets are collinear (opposite). -/
def thinStep (h w : ℤ) (skel : ℤ → ℤ → Bool) : ℤ → ℤ → Bool :=
  fun r c =>
    if 1 ≤ r ∧ r < h - 1 ∧ 1 ≤ c ∧ c < w - 1 ∧ skel r c = true then
      match nbOffsets.filter (fun d => skel (r + d.1) (c + d.2)) with
      | [d1, d2] =>
        if d1.1 + d2.1 = 0 ∧ d1.2 + d2.2 = 0 then true else false
      | _ => true
    else skel r c

/-- `_thin_skeleton` with its default `max_iterations = 5`: since a pass
that changes nothing is a fixpoint, the early break is equivalent to
iterating the pass exactly 5 times. -/
def _thin_skeleton (h w : ℤ) (skel : ℤ → ℤ → Bool) : ℤ → ℤ → Bool :=
  (thinStep h w)^[5] skel

/-- `_extract_skeleton`: ridge detection followed by thinning. -/
noncomputable def _extract_skeleton (h w : ℤ) (free : ℤ → ℤ → Bool)
    (dist : ℤ → ℤ → ℝ) (min_width_cells : ℚ) : ℤ → ℤ → Bool :=
  _thin_skeleton h w (skeletonRaw h w free dist min_width_cells)

/-- `_find_branch_points`: interior skeleton cells with at least 3 skeleton
neighbours, in row-major order. -/
def _find_branch_points (h w : ℤ) (skel : ℤ → ℤ → Bool) : List (ℤ × ℤ) :=
  (cellList h w).filter fun p =>
    decide (1 ≤ p.1 ∧ p.1 < h - 1 ∧ 1 ≤ p.2 ∧ p.2 < w - 1) &&
    skel p.1 p.2 &&
    decide (3 ≤ (nbOffsets.filter fun d => skel (p.1 + d.1) (p.2 + d.2)).length)

/-- Cluster centre: the coordinatewise rounded mean. -/
def clusterCenter (cl : List (ℤ × ℤ)) : ℤ × ℤ :=
  (pyRound (((cl.map Prod.fst).sum : ℤ) / (cl.length : ℚ)),
   pyRound (((cl.map Prod.snd).sum : ℤ) / (cl.length : ℚ)))

/-- The greedy used-flag clustering of `_cluster_points`: the earliest
unused point seeds a cluster that absorbs every later unused point within
Chebyshev radius `radius` of the seed.  Fuel is the number of points. -/
def clusterAux (radius : ℤ) : ℕ → List (ℤ × ℤ) → List (ℤ × ℤ)
  | 0, _ => []
  | _, [] => []
  | fuel + 1, p :: rest =>
    clusterCenter (p :: rest.filter fun q =>
        decide (|q.1 - p.1| ≤ radius ∧ |q.2 - p.2| ≤ radius)) ::
      clusterAux radius fuel (rest.filter fun q =>
        !decide (|q.1 - p.1| ≤ radius ∧ |q.2 - p.2| ≤ radius))

/-- `_cluster_points`. -/
def _cluster_points (points : List (ℤ × ℤ)) (radius : ℤ) : List (ℤ × ℤ) :=
  clusterAux radius points.length points

/-- `math.atan2 y x` as the argument of the complex number `x + y*i`
(range `(-pi, pi]`, zero at the origin, matching Python). -/
noncomputable def atan2R (y x : ℝ) : ℝ := Complex.arg ⟨x, y⟩

/-- The ring-cell angles of `_compute_passage_angles`: angles of skeleton
cells whose distance from the centre lies in `[radius/2, radius]`, collected
in row-major order over the clipped window (`search_radius = 8`). -/
noncomputable def ringAngles (h w : ℤ) (skel : ℤ → ℤ → Bool) (cr cc : ℤ) :
    List ℝ :=
  ((rangeZ (max 0 (cr - 8)) (min h (cr + 9))).map fun r =>
    ((rangeZ (max 0 (cc - 8)) (min w (cc + 9))).filter fun c =>
      skel r c &&
      decide ((4 : ℝ) ≤ Real.sqrt (((r - cr) ^ 2 + (c - cc) ^ 2 : ℤ)) ∧
        Real.sqrt (((r - cr) ^ 2 + (c - cc) ^ 2 : ℤ)) ≤ 8)).map
    fun c => atan2R ((r : ℝ) - (cr : ℝ)) ((c : ℝ) - (cc : ℝ))).flatten

/-- Insertion into a sorted list of reals (classical comparison). -/
noncomputable def insertSortedR (x : ℝ) : List ℝ → List ℝ
  | [] => [x]
  | y :: ys => if x ≤ y then x :: y :: ys else y :: insertSortedR x ys

/-- `list.sort()` on reals. -/
noncomputable def sortR : List ℝ → List ℝ
  | [] => []
  | x :: xs => insertSortedR x (sortR xs)

/-- The gap-splitting loop: append to the current group while the gap to the
previous (sorted) angle is at most pi/4, start a new group on a larger gap;
the final current group is the last returned group. -/
noncomputable def splitAux (cur : List ℝ) (prev : ℝ) : List ℝ → List (List ℝ)
  | [] => [cur]
  | x :: xs =>
    if Real.pi / 4 < x - prev then cur :: splitAux [x] x xs
    else splitAux (cur ++ [x]) x xs

/-- The wrap-around fixup: with `first`/`last` the extreme sorted angles,
keep the trailing group separate when the wrap-around gap exceeds pi/4,
otherwise merge it into the first group. -/
noncomputable def mergeWrap (first last : ℝ) (gs : List (List ℝ)) :
    List (List ℝ) :=
  match gs.dropLast, gs.getLastD [] with
  | [], cur => [cur]
  | p0 :: ps, cur =>
    if Real.pi / 4 < 2 * Real.pi - (last - first) then (p0 :: ps) ++ [cur]
    else (cur ++ p0) :: ps

/-- `_compute_passage_angles` (with its default `search_radius = 8`):
sort the ring angles, split at gaps larger than 45 degrees, fix up the
wrap-around gap, and average each group. -/
noncomputable def _compute_passage_angles (h w : ℤ) (skel : ℤ → ℤ → Bool)
    (cr cc : ℤ) : List ℝ :=
  match sortR (ringAngles h w skel cr cc) with
  | [] => []
  | a :: rest =>
    (mergeWrap a ((a :: rest).getLastD a) (splitAux [a] a rest)).map
      fun g => g.sum / (g.length : ℝ)

/-- `_classify_junction`. -/
noncomputable def _classify_junction (num_passages : ℕ) (angles : List ℝ) :
    String :=
  if num_passages = 2 then
    if |angles.getD 1 0 - angles.getD 0 0| < Real.pi / 3 then "fork"
    else "bend"
  else if num_passages = 3 then "t_junction"
  else if num_passages = 4 then "crossroads"
  else "junction_" ++ toString num_passages

/-- `round(q, 3)` on an exact rational. -/
def round3q (q : ℚ) : ℚ := (pyRound (q * 1000) : ℤ) / 1000

/-- `round(x, 3)` on a real. -/
noncomputable def round3r (x : ℝ) : ℝ := ((pyRoundR (x * 1000) : ℤ) : ℝ) / 1000

/-- One junction record of `detect_junctions`. -/
structure Junction where
  slam_x : ℚ
  slam_y : ℚ
  num_passages : ℕ
  passage_angles : List ℝ
  junction_type : String
  cell : ℤ × ℤ

/-- The distance field `detect_junctions` works on: the costmap's
`distance_field` divided back into cells when one is supplied, otherwise the
exact distance transform of the free mask (`fbD` on the undocumented
no-background input). -/
noncomputable def junctionDist (og : OccupancyGrid)
    (costmapDist : Option (ℤ → ℤ → ℝ)) (fbD : ℤ → ℤ → ℝ) : ℤ → ℤ → ℝ :=
  match costmapDist with
  | some df => fun r c => df r c / (og.resolution : ℝ)
  | none => fun r c =>
    match edtSq og.height og.width (fun a b => occGet og.grid a b) r c with
    | some n => Real.sqrt n
    | none => fbD r c

/-- `detect_junctions`: extract and thin the skeleton, find and cluster
branch points, and for every cluster centre that is free and has at least
two passage angles emit a junction record with rounded coordinates and
angles and the classified type. -/
noncomputable def detect_junctions (og : OccupancyGrid)
    (costmapDist : Option (ℤ → ℤ → ℝ)) (fbD : ℤ → ℤ → ℝ)
    (min_passage_width_m : ℚ) : List Junction :=
  let skel := _extract_skeleton og.height og.width
    (fun r c => !occGet og.grid r c)
    (junctionDist og costmapDist fbD)
    (min_passage_width_m / og.resolution)
  if (cellList og.height og.width).any (fun p => skel p.1 p.2) = false then []
  else if _find_branch_points og.height og.width skel = [] then []
  else
    (_cluster_points (_find_branch_points og.height og.width skel) 4).filterMap
      fun ctr =>
        if (!occGet og.grid ctr.1 ctr.2) = false then none
        else
          if (_compute_passage_angles og.height og.width skel ctr.1 ctr.2).length < 2 then
            none
          else
            some { slam_x := round3q (cell_to_world ctr.1 ctr.2 og.origin og.resolution).1
                   slam_y := round3q (cell_to_world ctr.1 ctr.2 og.origin og.resolution).2
                   num_passages := (_compute_passage_angles og.height og.width skel ctr.1 ctr.2).length
                   passage_angles := (_compute_passage_angles og.height og.width skel ctr.1 ctr.2).map round3r
                   junction_type := _classify_junction
                     (_compute_passage_angles og.height og.width skel ctr.1 ctr.2).length
                     (_compute_passage_angles og.height og.width skel ctr.1 ctr.2)
                   cell := ctr }

/-- The classification rule exactly as the specification states it, over the
list of (unrounded) passage angles. -/
noncomputable def claimClassify (angles : List ℝ) : String :=
  if angles.length = 2 then
    if |angles.getD 1 0 - angles.getD 0 0| < Real.pi / 3 then "fork"
    else "bend"
  else if angles.length = 3 then "t_junction"
  else if angles.length = 4 then "crossroads"
  else "junction_" ++ toString angles.length

lemma classify_eq_claim (a : List ℝ) :
    _classify_junction a.length a = claimClassify a := rfl

/-- C8: every junction record `detect_junctions` returns carries a list of
raw passage angles such that `num_passages` is its length,
`passage_angles` is its elementwise rounding to 3 decimals, and
`junction_type` is `_classify_junction` of that count and list, which
coincides with the specification's rule: 2 passages give `fork` when the
absolute difference of the two angles is below 60 degrees (pi/3) and `bend`
otherwise, 3 give `t_junction`, 4 give `crossroads`, and any other count `N`
gives `junction_N`. -/
theorem C8_junction_classification (og : OccupancyGrid)
    (costmapDist : Option (ℤ → ℤ → ℝ)) (fbD : ℤ → ℤ → ℝ)
    (min_passage_width_m : ℚ) :
    (detect_junctions og costmapDist fbD min_passage_width_m).Forall
      fun j => ∃ raw : List ℝ,
        j.num_passages = raw.length ∧
        j.passage_angles = raw.map round3r ∧
        j.junction_type = _classify_junction raw.length raw ∧
        j.junction_type = claimClassify raw := by
  rw [List.forall_iff_forall_mem]
  intro j hj
  simp only [detect_junctions] at hj
  split at hj
  · exact absurd hj (List.not_mem_nil j)
  split at hj
  · exact absurd hj (List.not_mem_nil j)
  rw [List.mem_filterMap] at hj
  obtain ⟨ctr, -, hf⟩ := hj
  split at hf
  · exact absurd hf (by simp)
  split at hf
  · exact absurd hf (by simp)
  have hj' := Option.some.inj hf
  refine ⟨_compute_passage_angles og.height og.width
    (_extract_skeleton og.height og.width (fun r c => !occGet og.grid r c)
      (junctionDist og costmapDist fbD) (min_passage_width_m / og.resolution))
    ctr.1 ctr.2, ?_, ?_, ?_, ?_⟩ <;> rw [← hj']
  exact classify_eq_claim _
